import Mathlib

/-!
# tagcheck: a shallow embedding of `main.go`

The program parses a directory of Go files and reports every named struct
field without a tag.  This development embeds the pure core of the program

* `collectSkipStructs` (reads the `notagcheck` directives of a file),
* `isSkipStruct` and the visitor closure of `check`,
* `check` itself, run through `ast.Inspect`,
* the renderings `FieldError.Error` and `FieldErrors.String`,

over a model of the parts of `go/ast`, `go/token`, `strings` and `fmt`
these functions call.

Go strings are modelled by Lean strings.  The program searches only for the
ASCII texts `notagcheck`, `:` and `,`, whose UTF-8 encodings never occur
inside the encoding of another character, so working on characters agrees
with Go working on bytes.
-/

namespace tagcheck

/-! ## go/token -/

namespace token

/-- The type `token.Pos`: a Go `int`. -/
abbrev Pos := Int

/-- The constant `token.NoPos`. -/
def NoPos : Pos := 0

/-- The type `token.Position`. -/
structure Position where
  Filename : String
  Offset : Int
  Line : Int
  Column : Int
deriving DecidableEq, Repr

/-- A `*token.FileSet`, seen through its only method the program calls:
`fset.Position(p)`. -/
abbrev FileSet := Pos → Position

end token

/-! ## strings -/

namespace strings

/-- Search of `substr` in the remaining text, `i` characters into the string. -/
def indexFrom (substr : List Char) : List Char → Nat → Int
  | [], i => if substr.isPrefixOf [] then (i : Int) else -1
  | c :: cs, i => if substr.isPrefixOf (c :: cs) then (i : Int) else indexFrom substr cs (i + 1)

/-- The function `strings.Index(s, substr)`: index of the first instance of
`substr` in `s`, or `-1`. -/
def Index (s substr : String) : Int :=
  indexFrom substr.data s.data 0

/-- The function `strings.Contains(s, substr)`, which Go defines as
`Index(s, substr) >= 0`. -/
def Contains (s substr : String) : Bool :=
  decide (Index s substr ≥ 0)

/-- Splitting of a character list at every occurrence of `sep`. -/
def splitChars (sep : Char) : List Char → List (List Char)
  | [] => [[]]
  | c :: cs =>
    if c = sep then [] :: splitChars sep cs
    else
      match splitChars sep cs with
      | [] => [[c]]
      | p :: ps => (c :: p) :: ps

/-- The function `strings.Split(s, sep)` for a separator of one character,
the only use the program makes of it: all pieces of `s` between the
occurrences of `sep`, and `[s]` when there is none. -/
def Split (s : String) (sep : Char) : List String :=
  (splitChars sep s.data).map String.mk

/-- The slice expression `s[i:]` for `0 ≤ i ≤ len(s)`. -/
def sliceFrom (s : String) (i : Int) : String :=
  String.mk (s.data.drop i.toNat)

end strings

/-! ## go/ast -/

namespace ast

open token

/-- The node `*ast.Ident`. -/
structure Ident where
  NamePos : Pos
  Name : String
deriving DecidableEq, Repr

/-- The node `*ast.BasicLit` (its `Kind` is not read by the program). -/
structure BasicLit where
  ValuePos : Pos
  Value : String
deriving DecidableEq, Repr

/-- The node `*ast.Comment`: `Text` includes the comment markers. -/
structure Comment where
  Slash : Pos
  Text : String
deriving DecidableEq, Repr

/-- The node `*ast.CommentGroup`. -/
structure CommentGroup where
  List : List Comment
deriving DecidableEq, Repr

mutual

/-- The interface `ast.Node`, with the node kinds the program tells apart.
Every other kind of node (declarations, statements, expressions, other
types) is an `other` node with its position and its non-nil children in the
order in which `ast.Walk` visits them.  `ast.Expr` is not kept apart from
`ast.Node`. -/
inductive Node where
  | ident (x : Ident)
  | basicLit (x : BasicLit)
  | comment (c : Comment)
  | commentGroup (g : CommentGroup)
  | field (f : Field)
  | fieldList (l : FieldList)
  | structType (Struct : Pos) (Fields : FieldList) (Incomplete : Bool)
  | typeSpec (Doc : Option CommentGroup) (Name : Ident) (TypeParams : Option FieldList)
      (Assign : Pos) (Type_ : Node) (Comment : Option CommentGroup)
  | file (f : File)
  | other (pos : Pos) (children : List Node)

/-- The node `*ast.Field`.  `Names` is a Go slice: `none` is the nil slice,
`some []` a slice of length zero that is not nil. -/
inductive Field where
  | mk (Doc : Option CommentGroup) (Names : Option (List Ident)) (Type_ : Option Node)
      (Tag : Option BasicLit) (Comment : Option CommentGroup)

/-- The node `*ast.FieldList`. -/
inductive FieldList where
  | mk (Opening : Pos) (List : List Field) (Closing : Pos)

/-- The node `*ast.File`, with the members `ast.Walk` and the program read. -/
inductive File where
  | mk (Doc : Option CommentGroup) (Package : Pos) (Name : Ident) (Decls : List Node)
      (Comments : List CommentGroup)

end

/-- The member `Doc` of a field. -/
def Field.Doc : Field → Option CommentGroup
  | .mk d _ _ _ _ => d

/-- The member `Names` of a field. -/
def Field.Names : Field → Option (List Ident)
  | .mk _ n _ _ _ => n

/-- The member `Type` of a field. -/
def Field.Type_ : Field → Option Node
  | .mk _ _ t _ _ => t

/-- The member `Tag` of a field. -/
def Field.Tag : Field → Option BasicLit
  | .mk _ _ _ t _ => t

/-- The member `Comment` of a field. -/
def Field.Comment : Field → Option CommentGroup
  | .mk _ _ _ _ c => c

/-- The member `List` of a field list. -/
def FieldList.List : FieldList → List Field
  | .mk _ l _ => l

/-- The member `Comments` of a file. -/
def File.Comments : File → List CommentGroup
  | .mk _ _ _ _ c => c

/-- The member `Decls` of a file. -/
def File.Decls : File → List Node
  | .mk _ _ _ d _ => d

/-- The method `(*ast.CommentGroup).Pos`: the position of the first comment
(`NoPos` stands in for the empty group, which the parser never builds). -/
def CommentGroup.Pos (g : CommentGroup) : Pos :=
  match g.List with
  | [] => NoPos
  | c :: _ => c.Slash

/-- The position of the first name of a name list when there is one, and
`otherwise` when the list has no name. -/
def firstNamePos (names : Option (List Ident)) (otherwise : Pos) : Pos :=
  match names with
  | some (x :: _) => x.NamePos
  | _ => otherwise

mutual

/-- The method `Pos()` of a node. -/
def Node.Pos : Node → Pos
  | .ident x => x.NamePos
  | .basicLit x => x.ValuePos
  | .comment c => c.Slash
  | .commentGroup g => CommentGroup.Pos g
  | .field f => Field.Pos f
  | .fieldList l => FieldList.Pos l
  | .structType p _ _ => p
  | .typeSpec _ nm _ _ _ _ => nm.NamePos
  | .file f => File.Pos f
  | .other p _ => p

/-- The position of the type of a field: `f.Type.Pos()` when the type is not
nil, else `NoPos`. -/
def typePos : Option Node → Pos
  | none => NoPos
  | some t => Node.Pos t

/-- The method `(*ast.Field).Pos`: the position of the first name when there
is one, else the position of the type, else `NoPos`. -/
def Field.Pos : Field → Pos
  | .mk _ names ty _ _ => firstNamePos names (typePos ty)

/-- The position of the first field of a list, `NoPos` for the empty list. -/
def fieldsPos : List Field → Pos
  | [] => NoPos
  | f :: _ => Field.Pos f

/-- The method `(*ast.FieldList).Pos`: the opening parenthesis or brace when
it is valid, else the position of the first field. -/
def FieldList.Pos : FieldList → Pos
  | .mk o l _ => if o ≠ NoPos then o else fieldsPos l

/-- The method `(*ast.File).Pos`. -/
def File.Pos : File → Pos
  | .mk _ p _ _ _ => p

end

/-- A visitor function as `ast.Inspect` takes it, with the state the closure
writes made explicit: the argument is `none` for the nil node. -/
abbrev Visitor (σ : Type) := Option Node → σ → Bool × σ

/-- Walk of a node without children: the node, then the nil node. -/
def inspectLeaf {σ : Type} (v : Visitor σ) (n : Node) (s : σ) : σ :=
  let r := v (some n) s
  if r.1 then (v none r.2).2 else r.2

/-- Walk of a list of identifiers (`walkList(v, n.Names)`). -/
def inspectIdents {σ : Type} (v : Visitor σ) : List Ident → σ → σ
  | [], s => s
  | x :: xs, s => inspectIdents v xs (inspectLeaf v (.ident x) s)

/-- Walk of the comments of a comment group. -/
def inspectComments {σ : Type} (v : Visitor σ) : List Comment → σ → σ
  | [], s => s
  | c :: cs, s => inspectComments v cs (inspectLeaf v (.comment c) s)

/-- Walk of a comment group. -/
def inspectCommentGroup {σ : Type} (v : Visitor σ) (g : CommentGroup) (s : σ) : σ :=
  let r := v (some (.commentGroup g)) s
  if r.1 then (v none (inspectComments v g.List r.2)).2 else r.2

/-- Walk of an optional comment group (`if n.Doc != nil`). -/
def inspectDoc {σ : Type} (v : Visitor σ) : Option CommentGroup → σ → σ
  | none, s => s
  | some g, s => inspectCommentGroup v g s

/-- Walk of the tag of a field (`if n.Tag != nil`). -/
def inspectTag {σ : Type} (v : Visitor σ) : Option BasicLit → σ → σ
  | none, s => s
  | some t, s => inspectLeaf v (.basicLit t) s

mutual

/-- The function `ast.Inspect(node, f)`, that is `ast.Walk` with the visitor
that goes on exactly when `f` returns true: `f` is called on the node; when
it returns true the children are walked in the order of `ast.Walk` and `f`
is called on the nil node. -/
def Inspect {σ : Type} (v : Visitor σ) : Node → σ → σ
  | .ident x, s => inspectLeaf v (.ident x) s
  | .basicLit x, s => inspectLeaf v (.basicLit x) s
  | .comment c, s => inspectLeaf v (.comment c) s
  | .commentGroup g, s => inspectCommentGroup v g s
  | .field f, s => inspectField v f s
  | .fieldList l, s => inspectFieldList v l s
  | .structType p fl inc, s =>
    let r := v (some (.structType p fl inc)) s
    if r.1 then (v none (inspectFieldList v fl r.2)).2 else r.2
  | .typeSpec doc nm tp a ty cmt, s =>
    let r := v (some (.typeSpec doc nm tp a ty cmt)) s
    if r.1 then
      let s1 := inspectDoc v doc r.2
      let s2 := inspectLeaf v (.ident nm) s1
      let s3 := inspectTypeParams v tp s2
      let s4 := Inspect v ty s3
      let s5 := inspectDoc v cmt s4
      (v none s5).2
    else r.2
  | .file f, s => inspectFile v f s
  | .other p cs, s =>
    let r := v (some (.other p cs)) s
    if r.1 then (v none (inspectNodes v cs r.2)).2 else r.2

/-- Walk of the type parameters of a type declaration
(`if n.TypeParams != nil`). -/
def inspectTypeParams {σ : Type} (v : Visitor σ) : Option FieldList → σ → σ
  | none, s => s
  | some l, s => inspectFieldList v l s

/-- Walk of the type of a field (`if n.Type != nil`). -/
def inspectType {σ : Type} (v : Visitor σ) : Option Node → σ → σ
  | none, s => s
  | some t, s => Inspect v t s

/-- Walk of a list of nodes, in order. -/
def inspectNodes {σ : Type} (v : Visitor σ) : List Node → σ → σ
  | [], s => s
  | n :: ns, s => inspectNodes v ns (Inspect v n s)

/-- Walk of a field: doc, names, type, tag, comment. -/
def inspectField {σ : Type} (v : Visitor σ) : Field → σ → σ
  | .mk doc names ty tag cmt, s =>
    let r := v (some (.field (.mk doc names ty tag cmt))) s
    if r.1 then
      let s1 := inspectDoc v doc r.2
      let s2 := inspectIdents v (names.getD []) s1
      let s3 := inspectType v ty s2
      let s4 := inspectTag v tag s3
      let s5 := inspectDoc v cmt s4
      (v none s5).2
    else r.2

/-- Walk of a field list. -/
def inspectFieldList {σ : Type} (v : Visitor σ) : FieldList → σ → σ
  | .mk o l c, s =>
    let r := v (some (.fieldList (.mk o l c))) s
    if r.1 then (v none (inspectFields v l r.2)).2 else r.2

/-- Walk of the fields of a field list, in order. -/
def inspectFields {σ : Type} (v : Visitor σ) : List Field → σ → σ
  | [], s => s
  | f :: fs, s => inspectFields v fs (inspectField v f s)

/-- Walk of a file: doc, package name, declarations.  The comment list of
the file is not walked. -/
def inspectFile {σ : Type} (v : Visitor σ) : File → σ → σ
  | .mk doc pkg nm decls cmts, s =>
    let r := v (some (.file (.mk doc pkg nm decls cmts))) s
    if r.1 then
      let s1 := inspectDoc v doc r.2
      let s2 := inspectLeaf v (.ident nm) s1
      let s3 := inspectNodes v decls s2
      (v none s3).2
    else r.2

end

end ast

/-! ## fmt -/

namespace fmt

/-- An operand of a formatting call: a string, an `int`, or a value with an
`Error()` method, given by the text that method returns. -/
inductive Arg where
  | str (s : String)
  | int (i : Int)
  | error (msg : String)

/-- The verb `%d` on an `int`: its decimal digits, with a minus sign when
negative. -/
def formatInt : Int → String
  | .ofNat n => Nat.repr n
  | .negSucc n => "-" ++ Nat.repr (n + 1)

/-- Interpretation of a format over its operands, on characters. -/
def sprintfChars : List Char → List Arg → List Char
  | [], _ => []
  | '%' :: 's' :: rest, .str s :: args => s.data ++ sprintfChars rest args
  | '%' :: 's' :: rest, .error msg :: args => msg.data ++ sprintfChars rest args
  | '%' :: 'd' :: rest, .int i :: args => (formatInt i).data ++ sprintfChars rest args
  | c :: rest, args => c :: sprintfChars rest args

/-- The function `fmt.Sprintf` for the verbs `%s` (on a string, or on an
error value, which is rendered by its `Error()` method) and `%d` (on an
`int`).  Other directives are outside this model and are copied unchanged. -/
def Sprintf (format : String) (args : List Arg) : String :=
  String.mk (sprintfChars format.data args)

end fmt

/-! ## main.go -/

open token ast

/-- The type `FieldError`. -/
structure FieldError where
  FileName : String
  FieldName : String
  Line : Int
  Column : Int
deriving DecidableEq, Repr

/-- The type `FieldErrors`: a slice of `FieldError`; the nil slice is `[]`. -/
abbrev FieldErrors := List FieldError

/-- The function `collectSkipStructs`, first loop: the pieces gathered from
one comment. -/
def collectComment (sts : List String) (c : Comment) : List String :=
  if strings.Contains c.Text "notagcheck" then
    let i := strings.Index c.Text ":"
    sts ++ strings.Split (strings.sliceFrom c.Text (i + 1)) ','
  else sts

/-- The function `collectSkipStructs`, first loop: the slice `sts` after all
comment groups of the file. -/
def collectPieces (comments : List CommentGroup) : List String :=
  comments.foldl (fun sts cg => cg.List.foldl collectComment sts) []

/-- The function `collectSkipStructs`.  The map `skipStructs` only ever
holds the value `true`, so it is the finite set of its keys, and
`skipStructs[name]` is membership. -/
def collectSkipStructs (file : File) : Finset String :=
  (collectPieces file.Comments).foldl
    (fun skipStructs st => if st ≠ "" then insert st skipStructs else skipStructs) ∅

/-- The function `isSkipStruct`. -/
def isSkipStruct (node : Option Node) (skipStructs : Finset String) : Bool :=
  match node with
  | some (.typeSpec _ Name _ _ (.structType _ _ _) _) => decide (Name.Name ∈ skipStructs)
  | _ => false

/-- The body of the loop over `x.Fields.List` in `check`: what one field adds
to `errs`. -/
def checkField (fset : FileSet) (errs : FieldErrors) (f : Field) : FieldErrors :=
  if f.Tag.isSome then errs
  else if f.Names.isNone then errs
  else
    let fieldName :=
      match f.Names with
      | some (x :: _) => x.Name
      | _ => ""
    errs ++ [{ FileName := (fset f.Pos).Filename,
               FieldName := fieldName,
               Line := (fset f.Pos).Line,
               Column := (fset f.Pos).Column }]

/-- The closure `check` inside the function `check`, with the captured
variable `errs` as explicit state. -/
def checkVisit (fset : FileSet) (skipStructs : Finset String) : Visitor FieldErrors :=
  fun n errs =>
    if isSkipStruct n skipStructs then (false, errs)
    else
      match n with
      | some (.structType _ Fields _) => (true, Fields.List.foldl (checkField fset) errs)
      | _ => (true, errs)

/-- The function `check`. -/
def check (fset : FileSet) (file : File) : FieldErrors :=
  let skipStructs := collectSkipStructs file
  Inspect (checkVisit fset skipStructs) (.file file) []

/-- The method `FieldError.Error`. -/
def FieldError.Error (f : FieldError) : String :=
  fmt.Sprintf "%s:%s:%d:%d" [.str f.FileName, .str f.FieldName, .int f.Line, .int f.Column]

/-- The loop of `FieldErrors.String` from index `i` on, over the elements
still to come, with the contents of the builder as state; `len` is `len(f)`. -/
def stringLoop (len : Int) : Nat → List FieldError → String → String
  | _, [], b => b
  | i, e :: es, b =>
    let b1 := b ++ fmt.Sprintf "%s" [.error e.Error]
    let b2 := if (i : Int) < len - 1 then b1 ++ "\n" else b1
    stringLoop len (i + 1) es b2

/-- The method `FieldErrors.String`. -/
def FieldErrors.String (f : FieldErrors) : String :=
  stringLoop (f.length : Int) 0 f ""

/-- The type `*ast.Package`.  The map `Files` from file name to file is the
list of its entries, in the order in which a `range` loop happens to visit
them. -/
structure ast.Package where
  Name : String
  Files : List (String × File)

/-- The type `map[string]FieldErrors` of `fileErrs`: the list of its entries,
with at most one entry for a key. -/
abbrev FileErrs := List (String × FieldErrors)

/-- The assignment `m[k] = v` on a map. -/
def mapAssign (m : FileErrs) (k : String) (v : FieldErrors) : FileErrs :=
  (k, v) :: m.filter (fun e => e.1 ≠ k)

/-- The body of the inner loop of `main`, for one entry of `pkg.Files`.
The test `errs != nil` is `errs ≠ []`: `check` returns the nil slice exactly
when it appended nothing. -/
def mainFile (fset : FileSet) (fileErrs : FileErrs) (entry : String × File) : FileErrs :=
  let errs := check fset entry.2
  if errs ≠ [] then mapAssign fileErrs entry.1 errs else fileErrs

/-- The two loops of `main` that build `fileErrs`, over the entries of `pkgs`
and of each `pkg.Files` in the order the `range` loops visit them. -/
def mainLoop (fset : FileSet) (pkgs : List (String × ast.Package)) : FileErrs :=
  pkgs.foldl (fun fileErrs p => p.2.Files.foldl (mainFile fset) fileErrs) []

/-! ## Specification side -/

/-- The expression `c.Text[i+1:]` of `collectSkipStructs`, with `i` the index
of the first colon of the comment text. -/
def listText (text : String) : String :=
  strings.sliceFrom text (strings.Index text ":" + 1)

/-- A file with the given comment groups and nothing else. -/
def fileOfComments (comments : List CommentGroup) : File :=
  .mk none NoPos ⟨NoPos, ""⟩ [] comments

/-- The exemption set collected from a single comment line. -/
def commentNames (c : Comment) : Finset String :=
  collectSkipStructs (fileOfComments [⟨[c]⟩])

/-- All comment lines of a file, group after group. -/
def commentLines (file : File) : List Comment :=
  file.Comments.flatMap (fun cg => cg.List)

/-- The non-empty strings of a list, as a set. -/
def nonEmptyNames (pieces : List String) : Finset String :=
  (pieces.filter (fun st => st ≠ "")).toFinset

/-- The list text as the specification words it: everything following the
first colon that occurs after the marker. -/
def listAfterMarker (text : String) : String :=
  let m := strings.Index text "notagcheck"
  let after := strings.sliceFrom text (m + 10)
  strings.sliceFrom after (strings.Index after ":" + 1)

/-- An occurrence of a field in the field list of a struct type of the tree. -/
structure FieldOcc where
  /-- The field. -/
  field : Field
  /-- The declared name of the struct type the field belongs to, when that
  struct type is directly the type of a type declaration. -/
  owner : Option String
  /-- Whether the struct type lies in the subtree of a type declaration whose
  type is a struct type and whose name is in the exemption set. -/
  exempted : Bool

/-- Whether a node is a struct type. -/
def isStructType : Node → Bool
  | .structType _ _ _ => true
  | _ => false

/-- Whether a type declaration with this name and type is a struct
declaration named in the exemption set. -/
def exemptDecl (skip : Finset String) (nm : Ident) (ty : Node) : Bool :=
  isStructType ty && decide (nm.Name ∈ skip)

mutual

/-- All field occurrences of the struct types of a tree, in the order of a
pre-order walk of the whole tree: the fields of a struct type, then those
of the struct types inside it.  The flag `ex` says whether the node lies
in the subtree of an exempted struct declaration, `own` is the name of the
declaration whose type the node directly is. -/
def structFields (skip : Finset String) (ex : Bool) (own : Option String) : Node → List FieldOcc
  | .ident _ => []
  | .basicLit _ => []
  | .comment _ => []
  | .commentGroup _ => []
  | .field f => structFieldsField skip ex f
  | .fieldList l => structFieldsFieldList skip ex l
  | .structType _ fl _ =>
    fl.List.map (fun f => ⟨f, own, ex⟩) ++ structFieldsFieldList skip ex fl
  | .typeSpec _ nm tp _ ty _ =>
    structFieldsTypeParams skip (ex || exemptDecl skip nm ty) tp ++
      structFields skip (ex || exemptDecl skip nm ty) (some nm.Name) ty
  | .file f => structFieldsFile skip ex f
  | .other _ cs => structFieldsNodes skip ex cs

/-- Field occurrences under the type parameters of a type declaration. -/
def structFieldsTypeParams (skip : Finset String) (ex : Bool) : Option FieldList → List FieldOcc
  | none => []
  | some l => structFieldsFieldList skip ex l

/-- Field occurrences under the type of a field. -/
def structFieldsType (skip : Finset String) (ex : Bool) : Option Node → List FieldOcc
  | none => []
  | some t => structFields skip ex none t

/-- Field occurrences under a list of nodes. -/
def structFieldsNodes (skip : Finset String) (ex : Bool) : List Node → List FieldOcc
  | [] => []
  | n :: ns => structFields skip ex none n ++ structFieldsNodes skip ex ns

/-- Field occurrences under a field. -/
def structFieldsField (skip : Finset String) (ex : Bool) : Field → List FieldOcc
  | .mk _ _ ty _ _ => structFieldsType skip ex ty

/-- Field occurrences under a field list. -/
def structFieldsFieldList (skip : Finset String) (ex : Bool) : FieldList → List FieldOcc
  | .mk _ l _ => structFieldsFields skip ex l

/-- Field occurrences under the fields of a field list. -/
def structFieldsFields (skip : Finset String) (ex : Bool) : List Field → List FieldOcc
  | [] => []
  | f :: fs => structFieldsField skip ex f ++ structFieldsFields skip ex fs

/-- Field occurrences under a file. -/
def structFieldsFile (skip : Finset String) (ex : Bool) : File → List FieldOcc
  | .mk _ _ _ decls _ => structFieldsNodes skip ex decls

end

/-- The diagnostic `check` builds for a field. -/
def diagnosticOf (fset : FileSet) (f : Field) : FieldError :=
  { FileName := (fset f.Pos).Filename,
    FieldName := (match f.Names with
      | some (x :: _) => x.Name
      | _ => ""),
    Line := (fset f.Pos).Line,
    Column := (fset f.Pos).Column }

/-- Whether a field has no tag and a name list. -/
def untaggedNamed (f : Field) : Bool :=
  f.Tag.isNone && f.Names.isSome

/-- Whether an occurrence is reported: it is not exempted, and the field has
no tag and a name list. -/
def offending (o : FieldOcc) : Bool :=
  !o.exempted && untaggedNamed o.field

/-- The diagnostics of the offending occurrences of a list, in order. -/
def diagnostics (fset : FileSet) (l : List FieldOcc) : FieldErrors :=
  (l.filter offending).map (fun o => diagnosticOf fset o.field)

/-- The field occurrences `check` reports for a file. -/
def reported (file : File) : List FieldOcc :=
  (structFields (collectSkipStructs file) false none (.file file)).filter offending

/-- Whether the struct type an occurrence belongs to is a declared struct
whose name is in the exemption set. -/
def declaredExempt (skip : Finset String) (o : FieldOcc) : Bool :=
  match o.owner with
  | some nm => decide (nm ∈ skip)
  | none => false

/-- Whether a field has at least one declared name. -/
def hasDeclaredName (f : Field) : Bool :=
  match f.Names with
  | some (_ :: _) => true
  | _ => false

/-- The condition of the specification for a diagnostic: the field belongs
to a struct that is not in the exemption set, has at least one declared
name and has no tag. -/
def statedOffending (skip : Finset String) (o : FieldOcc) : Bool :=
  !declaredExempt skip o && hasDeclaredName o.field && o.field.Tag.isNone

/-- The diagnostics the specification words for a file: one for each field
occurrence that meets `statedOffending`. -/
def statedReport (fset : FileSet) (file : File) : FieldErrors :=
  ((structFields (collectSkipStructs file) false none (.file file)).filter
    (statedOffending (collectSkipStructs file))).map (fun o => diagnosticOf fset o.field)

/-- The diagnostics of the untagged fields with a name list of the struct
types that are not the type of a type declaration: what the specification
says is reported whatever the exemption set holds. -/
def statedAnonymous (fset : FileSet) (file : File) : FieldErrors :=
  ((structFields (collectSkipStructs file) false none (.file file)).filter
    (fun o => o.owner.isNone && untaggedNamed o.field)).map (fun o => diagnosticOf fset o.field)

/-- Whether the name list of a field has a shape `go/parser` gives it: the
nil slice for an embedded field, or a slice with at least one name.  The
parser never builds a name list of length zero that is not nil. -/
def parserShaped (f : Field) : Bool :=
  match f.Names with
  | some [] => false
  | _ => true

mutual

/-- The number of struct type nodes of a tree, declared or not. -/
def countStructTypes : Node → Nat
  | .ident _ => 0
  | .basicLit _ => 0
  | .comment _ => 0
  | .commentGroup _ => 0
  | .field f => countStructTypesField f
  | .fieldList l => countStructTypesFieldList l
  | .structType _ fl _ => countStructTypesFieldList fl + 1
  | .typeSpec _ _ tp _ ty _ => countStructTypesTypeParams tp + countStructTypes ty
  | .file f => countStructTypesFile f
  | .other _ cs => countStructTypesNodes cs

/-- Struct type nodes under the type parameters of a type declaration. -/
def countStructTypesTypeParams : Option FieldList → Nat
  | none => 0
  | some l => countStructTypesFieldList l

/-- Struct type nodes under the type of a field. -/
def countStructTypesType : Option Node → Nat
  | none => 0
  | some t => countStructTypes t

/-- Struct type nodes under a list of nodes. -/
def countStructTypesNodes : List Node → Nat
  | [] => 0
  | n :: ns => countStructTypes n + countStructTypesNodes ns

/-- Struct type nodes under a field. -/
def countStructTypesField : Field → Nat
  | .mk _ _ ty _ _ => countStructTypesType ty

/-- Struct type nodes under a field list. -/
def countStructTypesFieldList : FieldList → Nat
  | .mk _ l _ => countStructTypesFields l

/-- Struct type nodes under the fields of a field list. -/
def countStructTypesFields : List Field → Nat
  | [] => 0
  | f :: fs => countStructTypesField f + countStructTypesFields fs

/-- Struct type nodes under a file. -/
def countStructTypesFile : File → Nat
  | .mk _ _ _ decls _ => countStructTypesNodes decls

end

/-- The number a list of decimal digits denotes. -/
def decimalValue (digits : List Char) : Nat :=
  digits.foldl (fun acc c => 10 * acc + (c.toNat - 48)) 0

/-- All files of a collection of packages with their names, in the order of
the loops of `main`. -/
def allFiles (pkgs : List (String × ast.Package)) : List (String × File) :=
  pkgs.flatMap (fun p => p.2.Files)

/-- The name of a type declaration when its type is directly a struct type. -/
def declaredStruct (nm : Ident) (ty : Node) : List String :=
  if isStructType ty then [nm.Name] else []

mutual

/-- The declared names of all type declarations of the tree whose type is
directly a struct type, wherever they stand. -/
def structDeclNames : Node → List String
  | .ident _ => []
  | .basicLit _ => []
  | .comment _ => []
  | .commentGroup _ => []
  | .field f => structDeclNamesField f
  | .fieldList l => structDeclNamesFieldList l
  | .structType _ fl _ => structDeclNamesFieldList fl
  | .typeSpec _ nm tp _ ty _ =>
    declaredStruct nm ty ++ (structDeclNamesTypeParams tp ++ structDeclNames ty)
  | .file f => structDeclNamesFile f
  | .other _ cs => structDeclNamesNodes cs

/-- Names of the struct declarations under the type parameters of a type
declaration. -/
def structDeclNamesTypeParams : Option FieldList → List String
  | none => []
  | some l => structDeclNamesFieldList l

/-- Names of the struct declarations under the type of a field. -/
def structDeclNamesType : Option Node → List String
  | none => []
  | some t => structDeclNames t

/-- Names of the struct declarations under a list of nodes. -/
def structDeclNamesNodes : List Node → List String
  | [] => []
  | n :: ns => structDeclNames n ++ structDeclNamesNodes ns

/-- Names of the struct declarations under a field. -/
def structDeclNamesField : Field → List String
  | .mk _ _ ty _ _ => structDeclNamesType ty

/-- Names of the struct declarations under a field list. -/
def structDeclNamesFieldList : FieldList → List String
  | .mk _ l _ => structDeclNamesFields l

/-- Names of the struct declarations under the fields of a field list. -/
def structDeclNamesFields : List Field → List String
  | [] => []
  | f :: fs => structDeclNamesField f ++ structDeclNamesFields fs

/-- Names of the struct declarations under a file. -/
def structDeclNamesFile : File → List String
  | .mk _ _ _ decls _ => structDeclNamesNodes decls

end

/-- The syntax tree of a file without its comment list: what `ast.Inspect`
walks. -/
def sameTree : File → File → Prop
  | .mk doc pkg nm decls _, .mk doc2 pkg2 nm2 decls2 _ =>
    doc = doc2 ∧ pkg = pkg2 ∧ nm = nm2 ∧ decls = decls2

/-! ## Example inputs -/

namespace examples

/-- A position resolver: file `a.go`, line `p / 100`, column `p % 100`. -/
def fset : FileSet := fun p => ⟨"a.go", p, p / 100, p % 100⟩

/-- A type name used as a type expression. -/
def typeName (p : Pos) (name : String) : Node :=
  .ident ⟨p, name⟩

/-- A field `name T` with an optional tag. -/
def namedField (p : Pos) (name : String) (ty : Node) (tag : Option BasicLit) : Field :=
  .mk none (some [⟨p, name⟩]) (some ty) tag none

/-- An embedded field `T` with an optional tag. -/
def embeddedField (ty : Node) (tag : Option BasicLit) : Field :=
  .mk none none (some ty) tag none

/-- A struct type `struct { fields }`. -/
def structOf (p : Pos) (fields : List Field) : Node :=
  .structType p (.mk (p + 7) fields (p + 90)) false

/-- A declaration `type name T`: a general declaration with one type
specification. -/
def typeDecl (p : Pos) (name : String) (ty : Node) : Node :=
  .other p [.typeSpec none ⟨p + 5, name⟩ none NoPos ty none]

/-- A file of package `main` with the given declarations and comment lines,
each comment line a group of its own. -/
def sourceFile (decls : List Node) (comments : List String) : File :=
  .mk none 1 ⟨9, "main"⟩ decls (comments.map (fun t => ⟨[⟨50, t⟩]⟩))

/-- The declaration `type Foo struct { Name string }`. -/
def declFoo : Node :=
  typeDecl 100 "Foo" (structOf 110 [namedField 205 "Name" (typeName 210 "string") none])

/-- A file with `type Foo struct { Name string }` and no comment. -/
def fileFoo : File :=
  sourceFile [declFoo] []

/-- The same file with the comment `// notagcheck:Foo`. -/
def fileFooExempt : File :=
  sourceFile [declFoo] ["// notagcheck:Foo"]

/-- The declaration `type Foo struct { In struct { X int } }`. -/
def declNested : Node :=
  typeDecl 100 "Foo" (structOf 110
    [namedField 205 "In" (structOf 208 [namedField 305 "X" (typeName 307 "int") none]) none])

/-- A file with `type Foo struct { In struct { X int } }` and no comment. -/
def fileNested : File :=
  sourceFile [declNested] []

/-- The same file with the comment `// notagcheck:Foo`. -/
def fileNestedExempt : File :=
  sourceFile [declNested] ["// notagcheck:Foo"]

/-- A field of type `int` whose name list is an empty slice that is not
nil, without a tag. -/
def fieldEmptyNames : Field :=
  .mk none (some []) (some (typeName 210 "int")) none none

/-- A file declaring `type Bar struct` with `fieldEmptyNames` as only field. -/
def fileEmptyNames : File :=
  sourceFile [typeDecl 100 "Bar" (structOf 110 [fieldEmptyNames])] []

/-- The field `A, B int`. -/
def fieldTwoNames : Field :=
  .mk none (some [⟨205, "A"⟩, ⟨208, "B"⟩]) (some (typeName 210 "int")) none none

/-- A file with `type T struct { A, B int }`. -/
def fileTwoNames : File :=
  sourceFile [typeDecl 100 "T" (structOf 110 [fieldTwoNames])] []

/-- A tag literal. -/
def tagLit (p : Pos) (v : String) : BasicLit :=
  ⟨p, v⟩

/-- A function declaration `func f() { body }`: its name, its type and its
body, a block statement with the given statements. -/
def funcDecl (p : Pos) (name : String) (body : List Node) : Node :=
  .other p [.ident ⟨p + 5, name⟩, .other p [.fieldList (.mk (p + 6) [] (p + 7))],
    .other (p + 9) body]

/-- A declaration statement holding a declaration. -/
def declStmt (decl : Node) : Node :=
  .other decl.Pos [decl]

/-- The local declaration `type Foo struct { Id int }`. -/
def declLocalFoo : Node :=
  typeDecl 500 "Foo" (structOf 510 [namedField 605 "Id" (typeName 608 "int") none])

/-- A file with `type Foo struct { Name string }` at top level and a
function whose body declares `type Foo struct { Id int }`, with the given
comment lines. -/
def fileLocal (comments : List String) : File :=
  sourceFile [declFoo, funcDecl 400 "f" [declStmt declLocalFoo]] comments

/-- A pointer type, a slice type or a parenthesized type around a type:
a node with the type as only child. -/
def wrapped (p : Pos) (ty : Node) : Node :=
  .other p [ty]

/-- A file with `// notagcheck:Foo` and `type Foo *struct { Name string }`
(or the slice, or the parenthesized type). -/
def fileWrapped : File :=
  sourceFile
    [typeDecl 100 "Foo"
      (wrapped 110 (structOf 111 [namedField 205 "Name" (typeName 210 "string") none]))]
    ["// notagcheck:Foo"]

/-- A file with `type T struct { In struct { X int } "json" }`: the field
`In` carries a tag, its type is an inline struct type. -/
def fileTaggedInline : File :=
  sourceFile [typeDecl 100 "T" (structOf 110
    [namedField 205 "In" (structOf 208 [namedField 305 "X" (typeName 307 "int") none])
      (some (tagLit 320 "json"))])] []

/-- A file with `type T struct { Base[struct { Y int }] }`: an embedded field
whose type, an instantiated generic type, holds a struct type. -/
def fileEmbeddedInline : File :=
  sourceFile [typeDecl 100 "T" (structOf 110
    [embeddedField (.other 205 [typeName 205 "Base",
      structOf 210 [namedField 305 "Y" (typeName 307 "int") none]]) none])] []

/-- A file with `type T struct { A struct { X int }; B int }`, the field `X`
on line 3 and the field `B` on line 4. -/
def fileOrder : File :=
  sourceFile [typeDecl 100 "T" (structOf 110
    [namedField 205 "A" (structOf 208 [namedField 305 "X" (typeName 307 "int") none]) none,
     namedField 405 "B" (typeName 407 "int") none])] []

/-- A file with `type N int` and `func f() {}`: no struct type at all. -/
def fileNoStructs : File :=
  sourceFile [typeDecl 100 "N" (typeName 110 "int"), funcDecl 400 "f" []] []

/-- A file with `var v struct { X int }` and the given comment lines: the
struct type is not the type of a type declaration. -/
def fileVar (comments : List String) : File :=
  sourceFile [.other 100 [.other 104 [.ident ⟨104, "v"⟩,
    structOf 106 [namedField 205 "X" (typeName 207 "int") none]]]] comments

/-- A file with two sibling declarations `type P struct { A int }` and
`type Q struct { B int }`. -/
def fileSiblings : File :=
  sourceFile
    [typeDecl 100 "P" (structOf 110 [namedField 205 "A" (typeName 207 "int") none]),
     typeDecl 300 "Q" (structOf 310 [namedField 405 "B" (typeName 407 "int") none])] []

/-- A position resolver for two files: positions below 10000 lie in `a.go`,
the others in `b.go`; in both the line is the offset divided by 100 and the
column the rest. -/
def fsetTwo : FileSet := fun p =>
  if p < 10000 then ⟨"a.go", p, p / 100, p % 100⟩
  else ⟨"b.go", p - 10000, (p - 10000) / 100, (p - 10000) % 100⟩

/-- A file with `type Foo struct { Name string }` and no comment, at the
positions of `b.go`. -/
def fileFooB : File :=
  sourceFile [typeDecl 10100 "Foo"
    (structOf 10110 [namedField 10205 "Name" (typeName 10210 "string") none])] []

end examples

/-! ## Lemmas -/

/-! ### strings -/

theorem indexFrom_colon_none : ∀ (l : List Char) (i : Nat), ':' ∉ l →
    strings.indexFrom [':'] l i = -1
  | [], i, _ => by simp [strings.indexFrom, List.isPrefixOf]
  | c :: cs, i, h => by
    have hc : ¬ (':' = c) := fun e => h (e ▸ List.mem_cons_self _ _)
    have hcs : ':' ∉ cs := fun e => h (List.mem_cons_of_mem _ e)
    simp [strings.indexFrom, List.isPrefixOf, hc, indexFrom_colon_none cs (i + 1) hcs]

theorem indexFrom_colon_split : ∀ (pre rest : List Char) (i : Nat), ':' ∉ pre →
    strings.indexFrom [':'] (pre ++ ':' :: rest) i = (i : Int) + pre.length
  | [], rest, i, _ => by simp [strings.indexFrom, List.isPrefixOf]
  | c :: cs, rest, i, h => by
    have hc : ¬ (':' = c) := fun e => h (e ▸ List.mem_cons_self _ _)
    have hcs : ':' ∉ cs := fun e => h (List.mem_cons_of_mem _ e)
    simp [strings.indexFrom, List.isPrefixOf, hc, indexFrom_colon_split cs rest (i + 1) hcs]
    omega

theorem colon_data : (":" : String).data = [':'] := rfl

theorem index_colon_none (text : String) (h : ':' ∉ text.data) :
    strings.Index text ":" = -1 := by
  unfold strings.Index
  rw [colon_data]
  exact indexFrom_colon_none _ _ h

theorem index_colon_split (text pre rest : String) (ht : text = pre ++ ":" ++ rest)
    (h : ':' ∉ pre.data) : strings.Index text ":" = pre.length := by
  unfold strings.Index
  rw [colon_data, ht]
  have : (pre ++ ":" ++ rest).data = pre.data ++ ':' :: rest.data := by
    simp [String.data_append, colon_data]
  rw [this, indexFrom_colon_split _ _ _ h]
  have hl : pre.length = pre.data.length := rfl
  rw [hl]
  simp

theorem listText_no_colon (text : String) (h : ':' ∉ text.data) : listText text = text := by
  unfold listText
  rw [index_colon_none text h]
  simp [strings.sliceFrom]

theorem listText_split (text pre rest : String) (ht : text = pre ++ ":" ++ rest)
    (h : ':' ∉ pre.data) : listText text = rest := by
  unfold listText
  rw [index_colon_split text pre rest ht h, ht]
  have : (pre ++ ":" ++ rest).data = pre.data ++ ':' :: rest.data := by
    simp [String.data_append, colon_data]
  simp only [strings.sliceFrom, this]
  have hl : pre.length = pre.data.length := rfl
  have h2 : ((pre.length : Int) + 1).toNat = pre.data.length + 1 := by
    rw [hl]; omega
  rw [h2, List.drop_append_eq_append_drop]
  have h3 : List.drop (pre.data.length + 1) pre.data = [] :=
    List.drop_eq_nil_of_le (Nat.le_succ _)
  rw [h3]
  simp

/-- The slice `c.Text[i+1:]` is always within bounds. -/
theorem indexFrom_bounds (sub : List Char) (hs : sub ≠ []) : ∀ (l : List Char) (i : Nat),
    strings.indexFrom sub l i = -1 ∨
      ((i : Int) ≤ strings.indexFrom sub l i ∧ strings.indexFrom sub l i < (i : Int) + l.length)
  | [], i => by
    left
    cases sub with
    | nil => exact absurd rfl hs
    | cons a as => simp [strings.indexFrom, List.isPrefixOf]
  | c :: cs, i => by
    unfold strings.indexFrom
    split
    · right; simp
    · rcases indexFrom_bounds sub hs cs (i + 1) with h | ⟨h1, h2⟩
      · left; exact h
      · right
        constructor
        · push_cast at h1; omega
        · push_cast at h2; simp; omega

theorem slice_in_bounds (text : String) :
    0 ≤ strings.Index text ":" + 1 ∧ strings.Index text ":" + 1 ≤ text.length := by
  unfold strings.Index
  rw [colon_data]
  rcases indexFrom_bounds [':'] (by simp) text.data 0 with h | ⟨h1, h2⟩
  · rw [h]; simp
  · have hl : text.length = text.data.length := rfl
    rw [hl]
    constructor <;> omega


/-! ### The exemption collector -/

theorem mem_foldl_skip (name : String) : ∀ (sts : List String) (init : Finset String),
    name ∈ sts.foldl
        (fun skipStructs st => if st ≠ "" then insert st skipStructs else skipStructs) init ↔
      name ∈ init ∨ (name ∈ sts ∧ name ≠ "")
  | [], init => by simp
  | st :: sts, init => by
    rw [List.foldl_cons, mem_foldl_skip name sts]
    by_cases h : st = ""
    · subst h
      simp only [ne_eq, not_true_eq_false, if_false, List.mem_cons]
      constructor
      · rintro (h | ⟨h1, h2⟩)
        · exact Or.inl h
        · exact Or.inr ⟨Or.inr h1, h2⟩
      · rintro (h | ⟨h1 | h1, h2⟩)
        · exact Or.inl h
        · exact absurd h1 h2
        · exact Or.inr ⟨h1, h2⟩
    · simp only [ne_eq, h, not_false_eq_true, if_true, Finset.mem_insert, List.mem_cons]
      constructor
      · rintro ((h1 | h1) | ⟨h1, h2⟩)
        · exact Or.inr ⟨Or.inl h1, h1 ▸ h⟩
        · exact Or.inl h1
        · exact Or.inr ⟨Or.inr h1, h2⟩
      · rintro (h1 | ⟨h1 | h1, h2⟩)
        · exact Or.inl (Or.inr h1)
        · exact Or.inl (Or.inl h1)
        · exact Or.inr ⟨h1, h2⟩

theorem collectSkipStructs_eq (file : File) :
    collectSkipStructs file = nonEmptyNames (collectPieces file.Comments) := by
  ext name
  unfold collectSkipStructs nonEmptyNames
  rw [mem_foldl_skip]
  simp

theorem collectComment_append (sts : List String) (c : Comment) :
    collectComment sts c = sts ++ collectComment [] c := by
  unfold collectComment
  split <;> simp

theorem foldl_collectComment : ∀ (l : List Comment) (sts : List String),
    l.foldl collectComment sts = sts ++ l.flatMap (collectComment [])
  | [], sts => by simp
  | c :: l, sts => by
    rw [List.foldl_cons, foldl_collectComment l, collectComment_append]
    simp [List.flatMap_cons]

theorem foldl_groups : ∀ (cgs : List CommentGroup) (sts : List String),
    cgs.foldl (fun sts cg => cg.List.foldl collectComment sts) sts =
      sts ++ (cgs.flatMap (fun cg => cg.List)).flatMap (collectComment [])
  | [], sts => by simp
  | cg :: cgs, sts => by
    rw [List.foldl_cons, foldl_groups cgs, foldl_collectComment]
    simp [List.flatMap_cons, List.flatMap_append]

theorem collectPieces_eq (cgs : List CommentGroup) :
    collectPieces cgs = (cgs.flatMap (fun cg => cg.List)).flatMap (collectComment []) := by
  unfold collectPieces
  rw [foldl_groups]
  simp

theorem collectComment_nil (c : Comment) :
    collectComment [] c =
      if strings.Contains c.Text "notagcheck" then strings.Split (listText c.Text) ','
      else [] := by
  unfold collectComment listText
  split <;> simp

theorem commentNames_eq (c : Comment) :
    commentNames c = nonEmptyNames (collectComment [] c) := by
  unfold commentNames
  rw [collectSkipStructs_eq, collectPieces_eq]
  simp [fileOfComments, File.Comments]

theorem mem_nonEmptyNames (name : String) (l : List String) :
    name ∈ nonEmptyNames l ↔ name ∈ l ∧ name ≠ "" := by
  simp [nonEmptyNames]

theorem mem_collectSkipStructs (file : File) (name : String) :
    name ∈ collectSkipStructs file ↔ ∃ c ∈ commentLines file, name ∈ commentNames c := by
  rw [collectSkipStructs_eq, collectPieces_eq, mem_nonEmptyNames]
  simp only [commentNames_eq, mem_nonEmptyNames, List.mem_flatMap, commentLines]
  constructor
  · rintro ⟨⟨c, hc, hn⟩, hne⟩
    exact ⟨c, hc, hn, hne⟩
  · rintro ⟨c, hc, hn, hne⟩
    exact ⟨⟨c, hc, hn⟩, hne⟩

theorem commentNames_of_marker (c : Comment)
    (h : strings.Contains c.Text "notagcheck" = true) :
    commentNames c = nonEmptyNames (strings.Split (listText c.Text) ',') := by
  rw [commentNames_eq, collectComment_nil, if_pos h]

theorem commentNames_of_no_marker (c : Comment)
    (h : strings.Contains c.Text "notagcheck" = false) : commentNames c = ∅ := by
  rw [commentNames_eq, collectComment_nil, h]
  rfl

/-! ### Split -/

theorem splitChars_ne_nil (sep : Char) : ∀ (l : List Char), strings.splitChars sep l ≠ []
  | [] => by simp [strings.splitChars]
  | c :: cs => by
    unfold strings.splitChars
    split
    · simp
    · split <;> simp

theorem splitChars_no_sep (sep : Char) : ∀ (l : List Char),
    ∀ p ∈ strings.splitChars sep l, sep ∉ p
  | [], p, h => by
    simp [strings.splitChars] at h
    simp [h]
  | c :: cs, p, h => by
    unfold strings.splitChars at h
    split at h
    · rcases List.mem_cons.1 h with h | h
      · simp [h]
      · exact splitChars_no_sep sep cs p h
    · rename_i hc
      split at h
      · rename_i he
        exact absurd he (splitChars_ne_nil sep cs)
      · rename_i q qs he
        have hq : sep ∉ q := splitChars_no_sep sep cs q (by rw [he]; exact List.mem_cons_self _ _)
        rcases List.mem_cons.1 h with h | h
        · subst h
          intro hm
          rcases List.mem_cons.1 hm with hm | hm
          · exact hc hm.symm
          · exact hq hm
        · exact splitChars_no_sep sep cs p (by rw [he]; exact List.mem_cons_of_mem _ h)

theorem splitChars_join (sep : Char) : ∀ (l : List Char),
    [sep].intercalate (strings.splitChars sep l) = l
  | [] => by simp [strings.splitChars, List.intercalate]
  | c :: cs => by
    have ih := splitChars_join sep cs
    unfold strings.splitChars
    split
    · rename_i hc
      cases he : strings.splitChars sep cs with
      | nil => exact absurd he (splitChars_ne_nil sep cs)
      | cons q qs =>
        rw [he] at ih
        subst hc
        simp only [List.intercalate, List.intersperse, List.flatten] at ih ⊢
        simp [ih]
    · cases he : strings.splitChars sep cs with
      | nil => exact absurd he (splitChars_ne_nil sep cs)
      | cons q qs =>
        rw [he] at ih
        cases qs with
        | nil =>
          simp only [List.intercalate, List.intersperse, List.flatten] at ih ⊢
          simp at ih ⊢
          exact ih
        | cons r rs =>
          simp only [List.intercalate, List.intersperse, List.flatten] at ih ⊢
          simp at ih ⊢
          exact ih


theorem splitChars_covers (sep : Char) : ∀ (l : List Char) (c : Char), c ∈ l → c ≠ sep →
    ∃ p ∈ strings.splitChars sep l, c ∈ p
  | [], c, h, _ => by simp at h
  | d :: ds, c, h, hc => by
    unfold strings.splitChars
    split
    · rename_i hd
      rcases List.mem_cons.1 h with h | h
      · exact absurd (h.trans hd) hc
      · obtain ⟨p, hp, hcp⟩ := splitChars_covers sep ds c h hc
        exact ⟨p, List.mem_cons_of_mem _ hp, hcp⟩
    · split
      · rename_i he
        exact absurd he (splitChars_ne_nil sep ds)
      · rename_i q qs he
        rcases List.mem_cons.1 h with h | h
        · exact ⟨d :: q, List.mem_cons_self _ _, h ▸ List.mem_cons_self _ _⟩
        · obtain ⟨p, hp, hcp⟩ := splitChars_covers sep ds c h hc
          rw [he] at hp
          rcases List.mem_cons.1 hp with hp | hp
          · exact ⟨d :: q, List.mem_cons_self _ _, List.mem_cons_of_mem _ (hp ▸ hcp)⟩
          · exact ⟨p, List.mem_cons_of_mem _ hp, hcp⟩

theorem indexFrom_head_mem (a : Char) (as : List Char) : ∀ (l : List Char) (i : Nat),
    0 ≤ strings.indexFrom (a :: as) l i → a ∈ l
  | [], i, h => by simp [strings.indexFrom, List.isPrefixOf] at h
  | c :: cs, i, h => by
    unfold strings.indexFrom at h
    split at h
    · rename_i hp
      simp only [List.isPrefixOf, Bool.and_eq_true, beq_iff_eq] at hp
      exact hp.1 ▸ List.mem_cons_self _ _
    · exact List.mem_cons_of_mem _ (indexFrom_head_mem a as cs (i + 1) h)

theorem marker_has_n (text : String) (h : strings.Contains text "notagcheck" = true) :
    'n' ∈ text.data := by
  unfold strings.Contains strings.Index at h
  have hd : ("notagcheck" : String).data = 'n' :: "otagcheck".data := rfl
  rw [hd] at h
  exact indexFrom_head_mem 'n' _ text.data 0 (by simpa using h)

theorem split_has_name (text : String) (h : strings.Contains text "notagcheck" = true) :
    ∃ name ∈ strings.Split text ',', name ≠ "" := by
  obtain ⟨p, hp, hn⟩ := splitChars_covers ',' text.data 'n' (marker_has_n text h) (by decide)
  refine ⟨String.mk p, List.mem_map.2 ⟨p, hp, rfl⟩, ?_⟩
  intro he
  have : p = [] := congrArg String.data he
  rw [this] at hn
  simp at hn

/-! ### Joining strings -/

theorem intercalate_go_append (sep : String) : ∀ (l : List String) (x y : String),
    String.intercalate.go (x ++ y) sep l = x ++ String.intercalate.go y sep l
  | [], x, y => rfl
  | a :: l, x, y => by
    simp only [String.intercalate.go]
    rw [← intercalate_go_append sep l x (y ++ sep ++ a)]
    simp [String.append_assoc]

theorem intercalate_cons_cons (sep a b : String) (l : List String) :
    sep.intercalate (a :: b :: l) = a ++ sep ++ sep.intercalate (b :: l) := by
  simp only [String.intercalate, String.intercalate.go]
  rw [intercalate_go_append]

theorem intercalate_data (sep : String) : ∀ (l : List String),
    (sep.intercalate l).data = sep.data.intercalate (l.map String.data)
  | [] => rfl
  | [a] => by simp [String.intercalate, String.intercalate.go, List.intercalate]
  | a :: b :: l => by
    rw [intercalate_cons_cons]
    have ih := intercalate_data sep (b :: l)
    simp only [String.data_append, ih]
    simp [List.intercalate, List.intersperse]

theorem split_join (s : String) : ",".intercalate (strings.Split s ',') = s := by
  apply String.ext
  rw [intercalate_data]
  unfold strings.Split
  have hm : List.map String.data (List.map String.mk (strings.splitChars ',' s.data)) =
      strings.splitChars ',' s.data := by
    rw [List.map_map]
    exact List.map_id _
  rw [hm]
  exact splitChars_join ',' s.data

theorem split_no_comma (s : String) : ∀ p ∈ strings.Split s ',', ',' ∉ p.data := by
  intro p hp
  obtain ⟨q, hq, rfl⟩ := List.mem_map.1 hp
  exact splitChars_no_sep ',' s.data q hq

/-! ### Rendering -/

theorem sprintf_error (msg : String) : fmt.Sprintf "%s" [.error msg] = msg := by
  apply String.ext
  have hd : ("%s" : String).data = ['%', 's'] := rfl
  simp [fmt.Sprintf, hd, fmt.sprintfChars]

theorem error_eq (e : FieldError) :
    e.Error = e.FileName ++ ":" ++ e.FieldName ++ ":" ++ fmt.formatInt e.Line ++ ":" ++
      fmt.formatInt e.Column := by
  apply String.ext
  have hd : ("%s:%s:%d:%d" : String).data =
      ['%', 's', ':', '%', 's', ':', '%', 'd', ':', '%', 'd'] := rfl
  simp [FieldError.Error, fmt.Sprintf, hd, fmt.sprintfChars, colon_data]

theorem stringLoop_eq : ∀ (es : List FieldError) (i : Nat) (b : String),
    stringLoop ((i + es.length : Nat) : Int) i es b =
      b ++ "\n".intercalate (es.map FieldError.Error)
  | [], i, b => by simp [stringLoop, String.intercalate]
  | [e], i, b => by
    simp [stringLoop, String.intercalate, String.intercalate.go, sprintf_error]
  | e :: e2 :: es, i, b => by
    have ih := stringLoop_eq (e2 :: es) (i + 1) (b ++ e.Error ++ "\n")
    have hlen : (i + (e :: e2 :: es).length : Nat) = i + 1 + (e2 :: es).length := by
      simp only [List.length_cons]; omega
    rw [hlen]
    rw [stringLoop]
    simp only [sprintf_error]
    have hlt : (i : Int) < ((i + 1 + (e2 :: es).length : Nat) : Int) - 1 := by
      simp only [List.length_cons]; push_cast; omega
    rw [if_pos hlt, ih]
    simp only [List.map_cons]
    rw [intercalate_cons_cons]
    simp [String.append_assoc]

theorem string_eq (f : FieldErrors) :
    FieldErrors.String f = "\n".intercalate (f.map FieldError.Error) := by
  unfold FieldErrors.String
  have h := stringLoop_eq f 0 ""
  simp only [Nat.zero_add, String.empty_append] at h
  exact h


/-! ### The walk -/

/-- Induction over syntax trees. -/
theorem tree_induction {P : Node → Prop} {Q : Field → Prop} {R : FieldList → Prop}
    {F : File → Prop}
    (h_ident : ∀ x, P (.ident x))
    (h_basicLit : ∀ x, P (.basicLit x))
    (h_comment : ∀ c, P (.comment c))
    (h_commentGroup : ∀ g, P (.commentGroup g))
    (h_field : ∀ f, Q f → P (.field f))
    (h_fieldList : ∀ l, R l → P (.fieldList l))
    (h_structType : ∀ p fl inc, R fl → P (.structType p fl inc))
    (h_typeSpec : ∀ doc nm tp a ty cmt, (∀ l, tp = some l → R l) → P ty →
      P (.typeSpec doc nm tp a ty cmt))
    (h_file : ∀ f, F f → P (.file f))
    (h_other : ∀ p cs, (∀ n ∈ cs, P n) → P (.other p cs))
    (h_mkField : ∀ doc names ty tag cmt, (∀ t, ty = some t → P t) →
      Q (.mk doc names ty tag cmt))
    (h_mkFieldList : ∀ o l c, (∀ f ∈ l, Q f) → R (.mk o l c))
    (h_mkFile : ∀ doc pkg nm decls cmts, (∀ n ∈ decls, P n) →
      F (.mk doc pkg nm decls cmts)) :
    (∀ n, P n) ∧ (∀ f, Q f) ∧ (∀ l, R l) ∧ (∀ f, F f) := by
  have hN : ∀ n, P n := fun n =>
    Node.rec (motive_1 := P) (motive_2 := Q) (motive_3 := R) (motive_4 := F)
      (motive_5 := fun o => ∀ l, o = some l → R l)
      (motive_6 := fun cs => ∀ n ∈ cs, P n)
      (motive_7 := fun o => ∀ t, o = some t → P t)
      (motive_8 := fun l => ∀ f ∈ l, Q f)
      h_ident h_basicLit h_comment h_commentGroup h_field h_fieldList h_structType
      h_typeSpec h_file h_other h_mkField h_mkFieldList h_mkFile
      (fun l h => by cases h)
      (fun v hv l h => by cases h; exact hv)
      (fun n h => by cases h)
      (fun a as ha has n h => by
        rcases List.mem_cons.1 h with h | h
        · exact h ▸ ha
        · exact has n h)
      (fun t h => by cases h)
      (fun v hv t h => by cases h; exact hv)
      (fun f h => by cases h)
      (fun a as ha has f h => by
        rcases List.mem_cons.1 h with h | h
        · exact h ▸ ha
        · exact has f h)
      n
  have hQ : ∀ f, Q f := fun f => by
    cases f with
    | mk doc names ty tag cmt => exact h_mkField doc names ty tag cmt (fun t _ => hN t)
  have hR : ∀ l, R l := fun l => by
    cases l with
    | mk o l c => exact h_mkFieldList o l c (fun f _ => hQ f)
  have hF : ∀ f, F f := fun f => by
    cases f with
    | mk doc pkg nm decls cmts => exact h_mkFile doc pkg nm decls cmts (fun n _ => hN n)
  exact ⟨hN, hQ, hR, hF⟩

theorem structFieldsNodes_mem {skip : Finset String} {ex : Bool} {o : FieldOcc} :
    ∀ {ns : List Node}, o ∈ structFieldsNodes skip ex ns →
      ∃ n ∈ ns, o ∈ structFields skip ex none n
  | [], h => by simp [structFieldsNodes] at h
  | n :: ns, h => by
    simp only [structFieldsNodes, List.mem_append] at h
    rcases h with h | h
    · exact ⟨n, List.mem_cons_self _ _, h⟩
    · obtain ⟨m, hm, ho⟩ := structFieldsNodes_mem h
      exact ⟨m, List.mem_cons_of_mem _ hm, ho⟩

theorem structFieldsFields_mem {skip : Finset String} {ex : Bool} {o : FieldOcc} :
    ∀ {fs : List Field}, o ∈ structFieldsFields skip ex fs →
      ∃ f ∈ fs, o ∈ structFieldsField skip ex f
  | [], h => by simp [structFieldsFields] at h
  | f :: fs, h => by
    simp only [structFieldsFields, List.mem_append] at h
    rcases h with h | h
    · exact ⟨f, List.mem_cons_self _ _, h⟩
    · obtain ⟨m, hm, ho⟩ := structFieldsFields_mem h
      exact ⟨m, List.mem_cons_of_mem _ hm, ho⟩

theorem structFields_exempted_all (skip : Finset String) :
    (∀ n, ∀ own, ∀ o ∈ structFields skip true own n, o.exempted = true) ∧
    (∀ f, ∀ o ∈ structFieldsField skip true f, o.exempted = true) ∧
    (∀ l, ∀ o ∈ structFieldsFieldList skip true l, o.exempted = true) ∧
    (∀ f, ∀ o ∈ structFieldsFile skip true f, o.exempted = true) := by
  apply tree_induction
  · intro x own o h; simp [structFields] at h
  · intro x own o h; simp [structFields] at h
  · intro x own o h; simp [structFields] at h
  · intro x own o h; simp [structFields] at h
  · intro f ih own o h
    simp only [structFields] at h
    exact ih o h
  · intro l ih own o h
    simp only [structFields] at h
    exact ih o h
  · intro p fl inc ih own o h
    simp only [structFields, List.mem_append, List.mem_map] at h
    rcases h with ⟨f, _, rfl⟩ | h
    · rfl
    · exact ih o h
  · intro doc nm tp a ty cmt ihtp ihty own o h
    simp only [structFields, Bool.true_or, List.mem_append] at h
    rcases h with h | h
    · cases tp with
      | none => simp [structFieldsTypeParams] at h
      | some l =>
        simp only [structFieldsTypeParams] at h
        exact ihtp l rfl o h
    · exact ihty _ o h
  · intro f ih own o h
    simp only [structFields] at h
    exact ih o h
  · intro p cs ih own o h
    simp only [structFields] at h
    obtain ⟨n, hn, ho⟩ := structFieldsNodes_mem h
    exact ih n hn none o ho
  · intro doc names ty tag cmt ih o h
    cases ty with
    | none => simp [structFieldsField, structFieldsType] at h
    | some t =>
      simp only [structFieldsField, structFieldsType] at h
      exact ih t rfl none o h
  · intro op l c ih o h
    simp only [structFieldsFieldList] at h
    obtain ⟨f, hf, ho⟩ := structFieldsFields_mem h
    exact ih f hf o ho
  · intro doc pkg nm decls cmts ih o h
    simp only [structFieldsFile] at h
    obtain ⟨n, hn, ho⟩ := structFieldsNodes_mem h
    exact ih n hn none o ho

theorem checkField_eq (fset : FileSet) (errs : FieldErrors) (f : Field) :
    checkField fset errs f =
      if untaggedNamed f then errs ++ [diagnosticOf fset f] else errs := by
  unfold checkField untaggedNamed diagnosticOf
  cases hT : f.Tag with
  | some t => simp
  | none =>
    cases hN : f.Names with
    | none => simp
    | some l => cases l <;> simp

theorem foldl_checkField (fset : FileSet) :
    ∀ (l : List Field) (errs : FieldErrors),
      l.foldl (checkField fset) errs =
        errs ++ (l.filter untaggedNamed).map (diagnosticOf fset)
  | [], errs => by simp
  | f :: l, errs => by
    rw [List.foldl_cons, foldl_checkField fset l, checkField_eq]
    by_cases h : untaggedNamed f = true
    · simp [h, List.filter_cons]
    · simp [h, List.filter_cons]

theorem diagnostics_append (fset : FileSet) (l₁ l₂ : List FieldOcc) :
    diagnostics fset (l₁ ++ l₂) = diagnostics fset l₁ ++ diagnostics fset l₂ := by
  simp [diagnostics]

theorem diagnostics_nil (fset : FileSet) : diagnostics fset [] = [] := rfl

theorem diagnostics_exempted (fset : FileSet) (l : List FieldOcc)
    (h : ∀ o ∈ l, o.exempted = true) : diagnostics fset l = [] := by
  unfold diagnostics
  rw [List.map_eq_nil_iff, List.filter_eq_nil_iff]
  intro o ho
  simp [offending, h o ho]

theorem diagnostics_own (fset : FileSet) (own : Option String) (l : List Field) :
    diagnostics fset (l.map (fun f => ⟨f, own, false⟩)) =
      (l.filter untaggedNamed).map (diagnosticOf fset) := by
  induction l with
  | nil => rfl
  | cons f l ih =>
    unfold diagnostics at ih ⊢
    by_cases h : untaggedNamed f = true
    · simp [List.filter_cons, offending, h] at ih ⊢
      exact ih
    · simp [List.filter_cons, offending, h] at ih ⊢
      exact ih

theorem isSkipStruct_typeSpec (skip : Finset String) (doc : Option CommentGroup) (nm : Ident)
    (tp : Option FieldList) (a : Pos) (ty : Node) (cmt : Option CommentGroup) :
    isSkipStruct (some (.typeSpec doc nm tp a ty cmt)) skip = exemptDecl skip nm ty := by
  cases ty <;> simp [isSkipStruct, exemptDecl, isStructType]

theorem checkVisit_none (fset : FileSet) (skip : Finset String) (errs : FieldErrors) :
    checkVisit fset skip none errs = (true, errs) := by
  simp [checkVisit, isSkipStruct]

theorem checkVisit_structType (fset : FileSet) (skip : Finset String) (p : Pos)
    (fl : FieldList) (inc : Bool) (errs : FieldErrors) :
    checkVisit fset skip (some (.structType p fl inc)) errs =
      (true, fl.List.foldl (checkField fset) errs) := by
  simp [checkVisit, isSkipStruct]

theorem checkVisit_typeSpec (fset : FileSet) (skip : Finset String) (doc : Option CommentGroup)
    (nm : Ident) (tp : Option FieldList) (a : Pos) (ty : Node) (cmt : Option CommentGroup)
    (errs : FieldErrors) :
    checkVisit fset skip (some (.typeSpec doc nm tp a ty cmt)) errs =
      (!exemptDecl skip nm ty, errs) := by
  unfold checkVisit
  rw [isSkipStruct_typeSpec]
  cases exemptDecl skip nm ty <;> simp

theorem inspectLeaf_ident (fset : FileSet) (skip : Finset String) (x : Ident)
    (errs : FieldErrors) : inspectLeaf (checkVisit fset skip) (.ident x) errs = errs := by
  simp [inspectLeaf, checkVisit, isSkipStruct]

theorem inspectLeaf_basicLit (fset : FileSet) (skip : Finset String) (x : BasicLit)
    (errs : FieldErrors) : inspectLeaf (checkVisit fset skip) (.basicLit x) errs = errs := by
  simp [inspectLeaf, checkVisit, isSkipStruct]

theorem inspectLeaf_comment (fset : FileSet) (skip : Finset String) (c : Comment)
    (errs : FieldErrors) : inspectLeaf (checkVisit fset skip) (.comment c) errs = errs := by
  simp [inspectLeaf, checkVisit, isSkipStruct]

theorem inspectIdents_check (fset : FileSet) (skip : Finset String) :
    ∀ (xs : List Ident) (errs : FieldErrors),
      inspectIdents (checkVisit fset skip) xs errs = errs
  | [], errs => rfl
  | x :: xs, errs => by
    rw [inspectIdents, inspectLeaf_ident, inspectIdents_check fset skip xs]

theorem inspectComments_check (fset : FileSet) (skip : Finset String) :
    ∀ (cs : List Comment) (errs : FieldErrors),
      inspectComments (checkVisit fset skip) cs errs = errs
  | [], errs => rfl
  | c :: cs, errs => by
    rw [inspectComments, inspectLeaf_comment, inspectComments_check fset skip cs]

theorem inspectCommentGroup_check (fset : FileSet) (skip : Finset String) (g : CommentGroup)
    (errs : FieldErrors) : inspectCommentGroup (checkVisit fset skip) g errs = errs := by
  simp [inspectCommentGroup, checkVisit, isSkipStruct, inspectComments_check]

theorem inspectDoc_check (fset : FileSet) (skip : Finset String) (d : Option CommentGroup)
    (errs : FieldErrors) : inspectDoc (checkVisit fset skip) d errs = errs := by
  cases d with
  | none => rfl
  | some g => exact inspectCommentGroup_check fset skip g errs

theorem inspectTag_check (fset : FileSet) (skip : Finset String) (t : Option BasicLit)
    (errs : FieldErrors) : inspectTag (checkVisit fset skip) t errs = errs := by
  cases t with
  | none => rfl
  | some t => exact inspectLeaf_basicLit fset skip t errs

theorem inspectNodes_of (fset : FileSet) (skip : Finset String) :
    ∀ (ns : List Node),
      (∀ n ∈ ns, ∀ own errs, Inspect (checkVisit fset skip) n errs =
        errs ++ diagnostics fset (structFields skip false own n)) →
      ∀ errs, inspectNodes (checkVisit fset skip) ns errs =
        errs ++ diagnostics fset (structFieldsNodes skip false ns)
  | [], _, errs => by simp [inspectNodes, structFieldsNodes, diagnostics_nil]
  | n :: ns, h, errs => by
    simp only [inspectNodes, structFieldsNodes]
    rw [h n (List.mem_cons_self _ _) none,
      inspectNodes_of fset skip ns (fun m hm => h m (List.mem_cons_of_mem _ hm)),
      diagnostics_append, List.append_assoc]

theorem inspectFields_of (fset : FileSet) (skip : Finset String) :
    ∀ (fs : List Field),
      (∀ f ∈ fs, ∀ errs, inspectField (checkVisit fset skip) f errs =
        errs ++ diagnostics fset (structFieldsField skip false f)) →
      ∀ errs, inspectFields (checkVisit fset skip) fs errs =
        errs ++ diagnostics fset (structFieldsFields skip false fs)
  | [], _, errs => by simp [inspectFields, structFieldsFields, diagnostics_nil]
  | f :: fs, h, errs => by
    simp only [inspectFields, structFieldsFields]
    rw [h f (List.mem_cons_self _ _),
      inspectFields_of fset skip fs (fun m hm => h m (List.mem_cons_of_mem _ hm)),
      diagnostics_append, List.append_assoc]

/-- The walk with the visitor of `check` appends the diagnostics of the
offending field occurrences of the tree, in the order of the enumeration. -/
theorem inspect_check_all (fset : FileSet) (skip : Finset String) :
    (∀ n, ∀ own errs, Inspect (checkVisit fset skip) n errs =
      errs ++ diagnostics fset (structFields skip false own n)) ∧
    (∀ f, ∀ errs, inspectField (checkVisit fset skip) f errs =
      errs ++ diagnostics fset (structFieldsField skip false f)) ∧
    (∀ l, ∀ errs, inspectFieldList (checkVisit fset skip) l errs =
      errs ++ diagnostics fset (structFieldsFieldList skip false l)) ∧
    (∀ f, ∀ errs, inspectFile (checkVisit fset skip) f errs =
      errs ++ diagnostics fset (structFieldsFile skip false f)) := by
  apply tree_induction
  · intro x own errs
    simp [Inspect, inspectLeaf_ident, structFields, diagnostics_nil]
  · intro x own errs
    simp [Inspect, inspectLeaf_basicLit, structFields, diagnostics_nil]
  · intro x own errs
    simp [Inspect, inspectLeaf_comment, structFields, diagnostics_nil]
  · intro x own errs
    simp [Inspect, inspectCommentGroup_check, structFields, diagnostics_nil]
  · intro f ih own errs
    simp only [Inspect, structFields]
    exact ih errs
  · intro l ih own errs
    simp only [Inspect, structFields]
    exact ih errs
  · intro p fl inc ih own errs
    simp only [Inspect, structFields, checkVisit_structType, checkVisit_none, if_true]
    rw [ih, foldl_checkField, diagnostics_append, diagnostics_own, List.append_assoc]
  · intro doc nm tp a ty cmt ihtp ihty own errs
    simp only [Inspect, structFields, checkVisit_typeSpec, checkVisit_none, Bool.false_or]
    cases hex : exemptDecl skip nm ty with
    | true =>
      have h1 : ∀ o ∈ structFieldsTypeParams skip true tp ++
          structFields skip true (some nm.Name) ty, o.exempted = true := by
        intro o ho
        rcases List.mem_append.1 ho with ho | ho
        · cases tp with
          | none => simp [structFieldsTypeParams] at ho
          | some l =>
            simp only [structFieldsTypeParams] at ho
            exact (structFields_exempted_all skip).2.2.1 l o ho
        · exact (structFields_exempted_all skip).1 ty _ o ho
      simp [diagnostics_exempted fset _ h1]
    | false =>
      simp only [Bool.not_false, if_true, inspectDoc_check, inspectLeaf_ident]
      rw [ihty (some nm.Name), diagnostics_append]
      cases tp with
      | none => simp [inspectTypeParams, structFieldsTypeParams, diagnostics_nil]
      | some l =>
        simp only [inspectTypeParams, structFieldsTypeParams]
        rw [ihtp l rfl, List.append_assoc]
  · intro f ih own errs
    simp only [Inspect, structFields]
    exact ih errs
  · intro p cs ih own errs
    simp only [Inspect, structFields]
    have hv : checkVisit fset skip (some (.other p cs)) errs = (true, errs) := by
      simp [checkVisit, isSkipStruct]
    simp only [hv, checkVisit_none, if_true]
    exact inspectNodes_of fset skip cs ih errs
  · intro doc names ty tag cmt ih errs
    simp only [inspectField, structFieldsField]
    have hv : checkVisit fset skip (some (.field (.mk doc names ty tag cmt))) errs =
        (true, errs) := by
      simp [checkVisit, isSkipStruct]
    simp only [hv, checkVisit_none, if_true, inspectDoc_check, inspectIdents_check,
      inspectTag_check]
    cases ty with
    | none => simp [inspectType, structFieldsType, diagnostics_nil]
    | some t =>
      simp only [inspectType, structFieldsType]
      exact ih t rfl none errs
  · intro op l c ih errs
    simp only [inspectFieldList, structFieldsFieldList]
    have hv : checkVisit fset skip (some (.fieldList (.mk op l c))) errs = (true, errs) := by
      simp [checkVisit, isSkipStruct]
    simp only [hv, checkVisit_none, if_true]
    exact inspectFields_of fset skip l ih errs
  · intro doc pkg nm decls cmts ih errs
    simp only [inspectFile, structFieldsFile]
    have hv : checkVisit fset skip (some (.file (.mk doc pkg nm decls cmts))) errs =
        (true, errs) := by
      simp [checkVisit, isSkipStruct]
    simp only [hv, checkVisit_none, if_true, inspectDoc_check, inspectLeaf_ident]
    exact inspectNodes_of fset skip decls ih errs

theorem check_eq_reported (fset : FileSet) (file : File) :
    check fset file = (reported file).map (fun o => diagnosticOf fset o.field) := by
  unfold check reported
  rw [(inspect_check_all fset (collectSkipStructs file)).1 (.file file) none []]
  simp [diagnostics]


/-! ### Decimal text -/

theorem digitChar_value : ∀ m : Nat, m < 10 →
    (Nat.digitChar m).toNat - 48 = m ∧ (Nat.digitChar m).isDigit = true := by
  intro m hm
  interval_cases m <;> decide

theorem toDigitsCore_value : ∀ (fuel n : Nat) (ds : List Char), n < fuel →
    (Nat.toDigitsCore 10 fuel n ds).foldl (fun acc c => 10 * acc + (c.toNat - 48)) 0 =
      ds.foldl (fun acc c => 10 * acc + (c.toNat - 48)) n
  | 0, n, ds, h => absurd h (Nat.not_lt_zero _)
  | fuel + 1, n, ds, h => by
    have hd := (digitChar_value (n % 10) (Nat.mod_lt _ (by decide))).1
    unfold Nat.toDigitsCore
    by_cases h0 : n / 10 = 0
    · simp only [h0, if_true, List.foldl_cons, hd]
      have : n % 10 = n := Nat.mod_eq_of_lt (by omega)
      simp [this]
    · simp only [h0, if_false]
      rw [toDigitsCore_value fuel (n / 10) _ (by omega)]
      simp only [List.foldl_cons, hd]
      have : 10 * (n / 10) + n % 10 = n := Nat.div_add_mod n 10
      rw [this]

theorem toDigitsCore_digits : ∀ (fuel n : Nat) (ds : List Char),
    (∀ c ∈ ds, c.isDigit = true) → ∀ c ∈ Nat.toDigitsCore 10 fuel n ds, c.isDigit = true
  | 0, n, ds, h => by simpa [Nat.toDigitsCore] using h
  | fuel + 1, n, ds, h => by
    have hd := (digitChar_value (n % 10) (Nat.mod_lt _ (by decide))).2
    have hds : ∀ c ∈ Nat.digitChar (n % 10) :: ds, c.isDigit = true := by
      intro c hc
      rcases List.mem_cons.1 hc with hc | hc
      · rw [hc]; exact hd
      · exact h c hc
    unfold Nat.toDigitsCore
    by_cases h0 : n / 10 = 0
    · simpa only [h0, if_true] using hds
    · simp only [h0, if_false]
      exact toDigitsCore_digits fuel (n / 10) _ hds

theorem formatInt_nat (n : Nat) :
    decimalValue (fmt.formatInt (n : Int)).data = n ∧
    ∀ c ∈ (fmt.formatInt (n : Int)).data, c.isDigit = true := by
  have hf : (fmt.formatInt (n : Int)).data = Nat.toDigitsCore 10 (n + 1) n [] := rfl
  rw [hf]
  refine ⟨?_, toDigitsCore_digits _ _ _ (by simp)⟩
  unfold decimalValue
  rw [toDigitsCore_value (n + 1) n [] (Nat.lt_succ_self n)]
  rfl

theorem formatInt_neg (n : Nat) :
    fmt.formatInt (-((n : Int) + 1)) = "-" ++ fmt.formatInt ((n : Int) + 1) := by
  have h1 : -((n : Int) + 1) = Int.negSucc n := rfl
  have h2 : ((n : Int) + 1) = Int.ofNat (n + 1) := rfl
  rw [h1, h2]
  rfl

/-! ### Reported fields -/

theorem hasDeclaredName_of_shaped (f : Field) (hs : parserShaped f = true) :
    hasDeclaredName f = f.Names.isSome := by
  unfold parserShaped at hs
  unfold hasDeclaredName
  cases hn : f.Names with
  | none => rfl
  | some l =>
    cases l with
    | nil => simp [hn] at hs
    | cons x xs => rfl


theorem reported_offending (file : File) : ∀ o ∈ reported file, offending o = true := by
  intro o ho
  exact (List.mem_filter.1 ho).2

theorem foldl_checkField_remove (fset : FileSet) (pre post : List Field) (f : Field)
    (errs : FieldErrors) (h : untaggedNamed f = false) :
    (pre ++ f :: post).foldl (checkField fset) errs =
      (pre ++ post).foldl (checkField fset) errs := by
  rw [foldl_checkField, foldl_checkField]
  simp [List.filter_append, List.filter_cons, h]

/-! ## Claims -/

/-- C1, as stated, fails.  With the comment `// notagcheck:Foo` and the
declaration `type Foo struct { In struct { X int } }`, the field `X` belongs
to an inline struct type that is not in the exemption set, has a declared
name and no tag, and `check` reports nothing.  In the other direction, a field
whose name list is an empty slice that is not nil has no declared name and is
reported, with an empty field name. -/
theorem C1_counterexample :
    (check examples.fset examples.fileNestedExempt = [] ∧
      statedReport examples.fset examples.fileNestedExempt = [⟨"a.go", "X", 3, 5⟩] ∧
      check examples.fset examples.fileNestedExempt ≠
        statedReport examples.fset examples.fileNestedExempt) ∧
    (check examples.fset examples.fileEmptyNames = [⟨"a.go", "", 2, 10⟩] ∧
      statedReport examples.fset examples.fileEmptyNames = [] ∧
      check examples.fset examples.fileEmptyNames ≠
        statedReport examples.fset examples.fileEmptyNames) := by
  decide

/-- C1, amended: for every parsed file, the diagnostics of `check` are those
of the field occurrences of the struct types of the tree such that the struct
type is not inside the subtree of a struct declaration named in the exemption
set, the field has no tag and the name list of the field is present; a file
declaring only `type Foo struct { Name string }` without a comment yields
exactly one diagnostic, naming `Name`. -/
theorem C1_check_reports_offending :
    (∀ (fset : FileSet) (file : File),
      check fset file =
        ((structFields (collectSkipStructs file) false none (.file file)).filter
          (fun o => !o.exempted && (o.field.Tag.isNone && o.field.Names.isSome))).map
          (fun o => diagnosticOf fset o.field)) ∧
    check examples.fset examples.fileFoo = [⟨"a.go", "Name", 2, 5⟩] := by
  refine ⟨fun fset file => ?_, by decide⟩
  rw [check_eq_reported]
  rfl

/-- C2: a type declaration whose type is a struct type and whose name is in
the exemption set is not descended into: the visitor returns false on it, the
walk of the declaration leaves the diagnostics unchanged, and every field
occurrence of every struct type inside the declaration, nested ones included,
is exempted and not reported.  With the comment `// notagcheck:Foo` the file
`type Foo struct { Name string }` yields no diagnostic, and so does
`type Foo struct { In struct { X int } }`, which yields two without it. -/
theorem C2_exempt_declaration_pruned :
    (∀ (fset : FileSet) (skip : Finset String) (doc : Option CommentGroup) (nm : Ident)
        (tp : Option FieldList) (a : Pos) (p : Pos) (fl : FieldList) (inc : Bool)
        (cmt : Option CommentGroup) (errs : FieldErrors),
      nm.Name ∈ skip →
      checkVisit fset skip (some (.typeSpec doc nm tp a (.structType p fl inc) cmt)) errs =
        (false, errs) ∧
      Inspect (checkVisit fset skip) (.typeSpec doc nm tp a (.structType p fl inc) cmt) errs =
        errs ∧
      ∀ (ex : Bool) (own : Option String),
        ∀ o ∈ structFields skip ex own (.typeSpec doc nm tp a (.structType p fl inc) cmt),
          o.exempted = true ∧ offending o = false) ∧
    check examples.fset examples.fileFooExempt = [] ∧
    check examples.fset examples.fileNestedExempt = [] ∧
    check examples.fset examples.fileNested = [⟨"a.go", "In", 2, 5⟩, ⟨"a.go", "X", 3, 5⟩] := by
  refine ⟨?_, by decide, by decide, by decide⟩
  intro fset skip doc nm tp a p fl inc cmt errs hmem
  have hex : exemptDecl skip nm (.structType p fl inc) = true := by
    simp [exemptDecl, isStructType, hmem]
  have hv : checkVisit fset skip (some (.typeSpec doc nm tp a (.structType p fl inc) cmt)) errs =
      (false, errs) := by
    rw [checkVisit_typeSpec, hex]
    rfl
  refine ⟨hv, ?_, ?_⟩
  · simp only [Inspect, hv]
    rfl
  · intro ex own o ho
    have hx : o.exempted = true := by
      simp only [structFields, hex, Bool.or_true, List.mem_append] at ho
      rcases ho with ho | ho
      · cases tp with
        | none => simp [structFieldsTypeParams] at ho
        | some l =>
          simp only [structFieldsTypeParams] at ho
          exact (structFields_exempted_all skip).2.2.1 l o ho
      · rcases ho with ho | ho
        · obtain ⟨f, _, rfl⟩ := List.mem_map.1 ho
          rfl
        · exact (structFields_exempted_all skip).2.2.1 fl o ho
    exact ⟨hx, by simp [offending, hx]⟩

/-- Witness of C2: the declaration `type Foo struct { In struct { X int } }`
with `Foo` in the exemption set. -/
theorem C2_exempt_declaration_pruned_witness :
    "Foo" ∈ ({"Foo"} : Finset String) ∧
    Inspect (checkVisit examples.fset {"Foo"})
      (.typeSpec none ⟨105, "Foo"⟩ none NoPos
        (.structType 110 (.mk 117
          [examples.namedField 205 "In"
            (examples.structOf 208 [examples.namedField 305 "X" (examples.typeName 307 "int") none])
            none] 200) false) none) [] = [] :=
  ⟨by decide, (C2_exempt_declaration_pruned.1 examples.fset {"Foo"} none ⟨105, "Foo"⟩ none NoPos
    110 _ false none [] (by decide)).2.1⟩

/-- C3, as stated, fails: for the comment `// see: notagcheck:Foo,Bar` the
text after the first colon following the marker is `Foo,Bar`, which would give
the names `Foo` and `Bar`, but `collectSkipStructs` takes the text after the
first colon of the whole comment and collects ` notagcheck:Foo` and `Bar`. -/
theorem C3_counterexample :
    commentNames ⟨50, "// see: notagcheck:Foo,Bar"⟩ = {" notagcheck:Foo", "Bar"} ∧
    nonEmptyNames (strings.Split (listAfterMarker "// see: notagcheck:Foo,Bar") ',') =
      {"Foo", "Bar"} ∧
    commentNames ⟨50, "// see: notagcheck:Foo,Bar"⟩ ≠
      nonEmptyNames (strings.Split (listAfterMarker "// see: notagcheck:Foo,Bar") ',') := by
  decide

/-- C3, amended: for every comment line containing the marker `notagcheck`,
`collectSkipStructs` takes the exemption list to be everything following the
first colon of the whole comment text; when the text before the marker, and
between the marker and the next colon, holds no colon, this is the first
colon after the marker.  The names of the line are part of the exemption set
of every file that holds the line. -/
theorem C3_list_after_first_colon :
    (∀ (c : Comment) (pre rest : String),
      strings.Contains c.Text "notagcheck" = true →
      c.Text = pre ++ ":" ++ rest → ':' ∉ pre.data →
      commentNames c = nonEmptyNames (strings.Split rest ',') ∧
      ∀ file : File, c ∈ commentLines file →
        nonEmptyNames (strings.Split rest ',') ⊆ collectSkipStructs file) ∧
    (∀ (c : Comment) (a b rest : String),
      strings.Contains c.Text "notagcheck" = true →
      c.Text = a ++ "notagcheck" ++ b ++ ":" ++ rest → ':' ∉ a.data → ':' ∉ b.data →
      commentNames c = nonEmptyNames (strings.Split rest ',')) := by
  have main : ∀ (c : Comment) (pre rest : String),
      strings.Contains c.Text "notagcheck" = true →
      c.Text = pre ++ ":" ++ rest → ':' ∉ pre.data →
      commentNames c = nonEmptyNames (strings.Split rest ',') := by
    intro c pre rest hm ht hp
    rw [commentNames_of_marker c hm, listText_split c.Text pre rest ht hp]
  refine ⟨fun c pre rest hm ht hp => ⟨main c pre rest hm ht hp, ?_⟩, ?_⟩
  · intro file hc name hn
    rw [mem_collectSkipStructs]
    exact ⟨c, hc, by rw [main c pre rest hm ht hp]; exact hn⟩
  · intro c a b rest hm ht ha hb
    refine main c (a ++ "notagcheck" ++ b) rest hm ht ?_
    simp only [String.data_append, List.mem_append, not_or]
    exact ⟨⟨ha, by decide⟩, hb⟩

/-- Witness of C3: the comment `// see: notagcheck:Foo,Bar`, whose first
colon stands before the marker. -/
theorem C3_list_after_first_colon_witness :
    strings.Contains "// see: notagcheck:Foo,Bar" "notagcheck" = true ∧
    ("// see: notagcheck:Foo,Bar" : String) = "// see" ++ ":" ++ " notagcheck:Foo,Bar" ∧
    ':' ∉ ("// see" : String).data ∧
    commentNames ⟨50, "// see: notagcheck:Foo,Bar"⟩ =
      nonEmptyNames (strings.Split " notagcheck:Foo,Bar" ',') :=
  ⟨by decide, by decide, by decide,
   (C3_list_after_first_colon.1 ⟨50, "// see: notagcheck:Foo,Bar"⟩ "// see"
    " notagcheck:Foo,Bar" (by decide) (by decide) (by decide)).1⟩

/-- C4, as stated, fails: the comment `// notagcheck Foo` holds the marker
and no colon, and contributes its whole text as a name; the comment
`// notagcheck,Foo` contributes `// notagcheck` and `Foo`, so that
`type Foo struct { Name string }` is exempted by it. -/
theorem C4_counterexample :
    (strings.Contains "// notagcheck Foo" "notagcheck" = true ∧
      ':' ∉ ("// notagcheck Foo" : String).data ∧
      commentNames ⟨50, "// notagcheck Foo"⟩ = {"// notagcheck Foo"} ∧
      commentNames ⟨50, "// notagcheck Foo"⟩ ≠ ∅) ∧
    (commentNames ⟨50, "// notagcheck,Foo"⟩ = {"// notagcheck", "Foo"} ∧
      check examples.fset (examples.sourceFile [examples.declFoo] ["// notagcheck,Foo"]) = []) := by
  decide

/-- C4, amended: for every comment line that contains the marker `notagcheck`
and no colon, `collectSkipStructs` does not fail (the index of the slice
`c.Text[i+1:]` is `0`, within bounds) and takes the whole comment text as the
list: the line contributes exactly the non-empty pieces of its text between
commas, which is at least one name. -/
theorem C4_no_colon_takes_whole_text (c : Comment)
    (hm : strings.Contains c.Text "notagcheck" = true) (hc : ':' ∉ c.Text.data) :
    commentNames c = nonEmptyNames (strings.Split c.Text ',') ∧
    (commentNames c).Nonempty ∧
    strings.Index c.Text ":" + 1 = 0 ∧
    (0 ≤ strings.Index c.Text ":" + 1 ∧ strings.Index c.Text ":" + 1 ≤ c.Text.length) := by
  have h1 : commentNames c = nonEmptyNames (strings.Split c.Text ',') := by
    rw [commentNames_of_marker c hm, listText_no_colon c.Text hc]
  refine ⟨h1, ?_, ?_, slice_in_bounds c.Text⟩
  · obtain ⟨name, hn, hne⟩ := split_has_name c.Text hm
    exact ⟨name, by rw [h1, mem_nonEmptyNames]; exact ⟨hn, hne⟩⟩
  · rw [index_colon_none c.Text hc]
    rfl

/-- Witness of C4: the comment `// notagcheck Foo`. -/
theorem C4_no_colon_takes_whole_text_witness :
    strings.Contains "// notagcheck Foo" "notagcheck" = true ∧
    ':' ∉ ("// notagcheck Foo" : String).data ∧
    commentNames ⟨50, "// notagcheck Foo"⟩ =
      nonEmptyNames (strings.Split "// notagcheck Foo" ',') :=
  ⟨by decide, by decide,
   (C4_no_colon_takes_whole_text ⟨50, "// notagcheck Foo"⟩ (by decide) (by decide)).1⟩

/-- C5: the set returned by `collectSkipStructs` is the union of the sets
collected from each comment line on its own, over the lines that hold the
marker (the other lines collect nothing); it depends only on which lines
occur, not on their order or grouping; each line's names are in the result;
and `// notagcheck:Foo` with `// notagcheck:Bar` gives the same set as
`// notagcheck:Foo,Bar`, the set of `Foo` and `Bar`. -/
theorem C5_union_of_lines :
    (∀ file : File,
      collectSkipStructs file =
        ((commentLines file).filter
          (fun c => strings.Contains c.Text "notagcheck")).toFinset.biUnion commentNames) ∧
    (∀ c : Comment, strings.Contains c.Text "notagcheck" = false → commentNames c = ∅) ∧
    (∀ f g : File, (commentLines f).toFinset = (commentLines g).toFinset →
      collectSkipStructs f = collectSkipStructs g) ∧
    (∀ (file : File), ∀ c ∈ commentLines file, commentNames c ⊆ collectSkipStructs file) ∧
    (collectSkipStructs (examples.sourceFile [] ["// notagcheck:Foo", "// notagcheck:Bar"]) =
        {"Foo", "Bar"} ∧
      collectSkipStructs (examples.sourceFile [] ["// notagcheck:Foo,Bar"]) = {"Foo", "Bar"} ∧
      collectSkipStructs (fileOfComments
        [⟨[⟨60, "// notagcheck:Bar"⟩, ⟨50, "// notagcheck:Foo"⟩]⟩]) = {"Foo", "Bar"}) := by
  refine ⟨?_, commentNames_of_no_marker, ?_, ?_, by decide⟩
  · intro file
    ext name
    rw [mem_collectSkipStructs]
    simp only [Finset.mem_biUnion, List.mem_toFinset, List.mem_filter]
    constructor
    · rintro ⟨c, hc, hn⟩
      refine ⟨c, ⟨hc, ?_⟩, hn⟩
      cases hm : strings.Contains c.Text "notagcheck" with
      | true => rfl
      | false =>
        rw [commentNames_of_no_marker c hm] at hn
        simp at hn
    · rintro ⟨c, ⟨hc, _⟩, hn⟩
      exact ⟨c, hc, hn⟩
  · intro f g h
    ext name
    rw [mem_collectSkipStructs, mem_collectSkipStructs]
    have hmem : ∀ c, c ∈ commentLines f ↔ c ∈ commentLines g := by
      intro c
      rw [← List.mem_toFinset, ← List.mem_toFinset, h]
    constructor
    · rintro ⟨c, hc, hn⟩
      exact ⟨c, (hmem c).1 hc, hn⟩
    · rintro ⟨c, hc, hn⟩
      exact ⟨c, (hmem c).2 hc, hn⟩
  · intro file c hc name hn
    rw [mem_collectSkipStructs]
    exact ⟨c, hc, hn⟩

/-- Witness of C5: two files with the same comment lines in another order
and another grouping. -/
theorem C5_union_of_lines_witness :
    (commentLines (fileOfComments
        [⟨[⟨50, "// notagcheck:Foo"⟩]⟩, ⟨[⟨60, "// notagcheck:Bar"⟩]⟩])).toFinset =
      (commentLines (fileOfComments
        [⟨[⟨60, "// notagcheck:Bar"⟩, ⟨50, "// notagcheck:Foo"⟩]⟩])).toFinset ∧
    collectSkipStructs (fileOfComments
        [⟨[⟨50, "// notagcheck:Foo"⟩]⟩, ⟨[⟨60, "// notagcheck:Bar"⟩]⟩]) =
      collectSkipStructs (fileOfComments
        [⟨[⟨60, "// notagcheck:Bar"⟩, ⟨50, "// notagcheck:Foo"⟩]⟩]) :=
  ⟨by decide, C5_union_of_lines.2.2.1 _ _ (by decide)⟩

/-- C6: for every comment line containing the marker, the names added are
exactly the non-empty pieces of the list text split on commas; the pieces are
taken verbatim (joined by commas they give the list text back, and none holds
a comma), so `// notagcheck:Foo, Bar` yields `Foo` and ` Bar` and not `Bar`;
the empty string is never in the returned set; a directive with an empty list
contributes no name. -/
theorem C6_pieces_verbatim :
    (∀ (c : Comment), strings.Contains c.Text "notagcheck" = true →
      ∀ name : String, name ∈ commentNames c ↔
        (name ∈ strings.Split (listText c.Text) ',' ∧ name ≠ "")) ∧
    (∀ s : String, ",".intercalate (strings.Split s ',') = s ∧
      ∀ p ∈ strings.Split s ',', ',' ∉ p.data) ∧
    (commentNames ⟨50, "// notagcheck:Foo, Bar"⟩ = {"Foo", " Bar"} ∧
      "Bar" ∉ commentNames ⟨50, "// notagcheck:Foo, Bar"⟩) ∧
    (∀ file : File, "" ∉ collectSkipStructs file) ∧
    (∀ (c : Comment), strings.Contains c.Text "notagcheck" = true →
      listText c.Text = "" → commentNames c = ∅) := by
  refine ⟨?_, fun s => ⟨split_join s, split_no_comma s⟩, by decide, ?_, ?_⟩
  · intro c hm name
    rw [commentNames_of_marker c hm, mem_nonEmptyNames]
  · intro file h
    rw [collectSkipStructs_eq, mem_nonEmptyNames] at h
    exact h.2 rfl
  · intro c hm hl
    rw [commentNames_of_marker c hm, hl]
    decide

/-- Witness of C6: the comment `// notagcheck:` has the marker and an empty
list, and the comment `// notagcheck:Foo, Bar` has the name ` Bar`. -/
theorem C6_pieces_verbatim_witness :
    commentNames ⟨50, "// notagcheck:"⟩ = ∅ ∧
    " Bar" ∈ commentNames ⟨50, "// notagcheck:Foo, Bar"⟩ :=
  ⟨C6_pieces_verbatim.2.2.2.2 ⟨50, "// notagcheck:"⟩ (by decide) (by decide),
   (C6_pieces_verbatim.1 ⟨50, "// notagcheck:Foo, Bar"⟩ (by decide) " Bar").2
     ⟨by decide, by decide⟩⟩

/-- C7: for every struct type and every field entry with no declared name,
`check` never produces a diagnostic for that field, whether or not it carries
a tag.  For a field as `go/parser` builds it (the name list is absent, or has
at least one name) without a declared name, the loop body leaves the
diagnostics unchanged and the visit of a struct type gives the same result
with and without the field; in a file whose fields have that shape every
field occurrence `check` reports has a declared name.  A field whose name list
is absent is never reported, whatever the shape of the other fields. -/
theorem C7_embedded_never_flagged :
    (∀ (fset : FileSet) (errs : FieldErrors) (f : Field), parserShaped f = true →
      hasDeclaredName f = false → checkField fset errs f = errs) ∧
    (∀ (fset : FileSet) (skip : Finset String) (p o c : Pos) (inc : Bool)
        (pre post : List Field) (f : Field) (errs : FieldErrors), parserShaped f = true →
      hasDeclaredName f = false →
      checkVisit fset skip (some (.structType p (.mk o (pre ++ f :: post) c) inc)) errs =
        checkVisit fset skip (some (.structType p (.mk o (pre ++ post) c) inc)) errs) ∧
    (∀ (fset : FileSet) (file : File),
      (∀ o ∈ structFields (collectSkipStructs file) false none (.file file),
        parserShaped o.field = true) →
      check fset file = (reported file).map (fun o => diagnosticOf fset o.field) ∧
      ∀ o ∈ reported file, hasDeclaredName o.field = true) ∧
    (∀ (fset : FileSet) (errs : FieldErrors) (f : Field), f.Names = none →
      checkField fset errs f = errs) ∧
    (∀ (file : File), ∀ o ∈ reported file, o.field.Names ≠ none) := by
  have hu : ∀ f : Field, parserShaped f = true → hasDeclaredName f = false →
      untaggedNamed f = false := by
    intro f hs hd
    rw [hasDeclaredName_of_shaped f hs] at hd
    simp [untaggedNamed, hd]
  refine ⟨?_, ?_, ?_, ?_, ?_⟩
  · intro fset errs f hs hd
    rw [checkField_eq, hu f hs hd]
    rfl
  · intro fset skip p o c inc pre post f errs hs hd
    rw [checkVisit_structType, checkVisit_structType]
    simp only [FieldList.List]
    rw [foldl_checkField_remove fset pre post f errs (hu f hs hd)]
  · intro fset file hshape
    refine ⟨check_eq_reported fset file, ?_⟩
    intro o ho
    have hoff := reported_offending file o ho
    have hmem := (List.mem_filter.1 ho).1
    rw [hasDeclaredName_of_shaped o.field (hshape o hmem)]
    simp only [offending, untaggedNamed, Bool.and_eq_true] at hoff
    exact hoff.2.2
  · intro fset errs f h
    rw [checkField_eq]
    simp [untaggedNamed, h]
  · intro file o ho hn
    have := reported_offending file o ho
    simp [offending, untaggedNamed, hn] at this

/-- Witness of C7: an embedded field `Base`, without a tag and with one. -/
theorem C7_embedded_never_flagged_witness :
    parserShaped (examples.embeddedField (examples.typeName 205 "Base") none) = true ∧
    hasDeclaredName (examples.embeddedField (examples.typeName 205 "Base") none) = false ∧
    checkField examples.fset []
        (examples.embeddedField (examples.typeName 205 "Base") none) = [] ∧
    checkField examples.fset []
        (examples.embeddedField (examples.typeName 205 "Base")
          (some (examples.tagLit 210 "json"))) = [] :=
  ⟨by decide, by decide,
   C7_embedded_never_flagged.1 examples.fset []
    (examples.embeddedField (examples.typeName 205 "Base") none) (by decide) (by decide),
   C7_embedded_never_flagged.1 examples.fset []
    (examples.embeddedField (examples.typeName 205 "Base") (some (examples.tagLit 210 "json")))
    (by decide) (by decide)⟩

/-- C8: for every struct type and every field that carries a tag, `check`
never produces a diagnostic for that field, whatever the text of the tag: the
loop body leaves the diagnostics unchanged, the visit of a struct type gives
the same result with and without the field, and every field occurrence
`check` reports for a file has no tag. -/
theorem C8_tagged_never_flagged :
    (∀ (fset : FileSet) (errs : FieldErrors) (f : Field) (t : BasicLit), f.Tag = some t →
      checkField fset errs f = errs) ∧
    (∀ (fset : FileSet) (skip : Finset String) (p o c : Pos) (inc : Bool)
        (pre post : List Field) (f : Field) (t : BasicLit) (errs : FieldErrors),
      f.Tag = some t →
      checkVisit fset skip (some (.structType p (.mk o (pre ++ f :: post) c) inc)) errs =
        checkVisit fset skip (some (.structType p (.mk o (pre ++ post) c) inc)) errs) ∧
    (∀ (fset : FileSet) (file : File),
      check fset file = (reported file).map (fun o => diagnosticOf fset o.field) ∧
      ∀ o ∈ reported file, o.field.Tag = none) := by
  refine ⟨?_, ?_, ?_⟩
  · intro fset errs f t h
    rw [checkField_eq]
    simp [untaggedNamed, h]
  · intro fset skip p o c inc pre post f t errs h
    rw [checkVisit_structType, checkVisit_structType]
    simp only [FieldList.List]
    rw [foldl_checkField_remove fset pre post f errs (by simp [untaggedNamed, h])]
  · intro fset file
    refine ⟨check_eq_reported fset file, ?_⟩
    intro o ho
    have := reported_offending file o ho
    simp only [offending, untaggedNamed, Bool.and_eq_true, Option.isNone_iff_eq_none] at this
    exact this.2.1

/-- Witness of C8: a named field with the tag `json:name`, and one whose
tag text is empty. -/
theorem C8_tagged_never_flagged_witness :
    checkField examples.fset []
        (examples.namedField 205 "Name" (examples.typeName 210 "string")
          (some (examples.tagLit 217 "json:name"))) = [] ∧
    checkField examples.fset []
        (examples.namedField 205 "Name" (examples.typeName 210 "string")
          (some (examples.tagLit 217 ""))) = [] :=
  ⟨C8_tagged_never_flagged.1 examples.fset [] _ (examples.tagLit 217 "json:name") rfl,
   C8_tagged_never_flagged.1 examples.fset [] _ (examples.tagLit 217 "") rfl⟩

/-- C9: the diagnostics of `check` are, one for one and in order, those of the
field occurrences it reports; the diagnostic of a field has as file name,
line and column the components of the resolved position of the field node,
and as field name the first declared name of the field, whatever the number
of names (the empty string when the name list holds no name); the position
of a field with names is that of its first name; `A, B int` yields one
diagnostic, naming `A`. -/
theorem C9_diagnostic_of_field :
    (∀ (fset : FileSet) (file : File),
      check fset file = (reported file).map (fun o => diagnosticOf fset o.field) ∧
      (check fset file).length = (reported file).length) ∧
    (∀ (fset : FileSet) (f : Field),
      (diagnosticOf fset f).FileName = (fset f.Pos).Filename ∧
      (diagnosticOf fset f).Line = (fset f.Pos).Line ∧
      (diagnosticOf fset f).Column = (fset f.Pos).Column) ∧
    (∀ (fset : FileSet) (f : Field),
      (diagnosticOf fset f).FieldName =
        (((f.Names.getD []).head?).map (fun x => x.Name)).getD "") ∧
    (∀ (fset : FileSet) (errs : FieldErrors) (f : Field) (x : Ident) (xs : List Ident),
      f.Names = some (x :: xs) → f.Tag = none →
      checkField fset errs f = errs ++ [diagnosticOf fset f] ∧
      (diagnosticOf fset f).FieldName = x.Name ∧
      f.Pos = x.NamePos) ∧
    check examples.fset examples.fileTwoNames = [⟨"a.go", "A", 2, 5⟩] := by
  refine ⟨?_, ?_, ?_, ?_, by decide⟩
  · intro fset file
    refine ⟨check_eq_reported fset file, ?_⟩
    rw [check_eq_reported, List.length_map]
  · intro fset f
    exact ⟨rfl, rfl, rfl⟩
  · intro fset f
    cases f with
    | mk doc names ty tag cmt =>
      cases names with
      | none => rfl
      | some l => cases l <;> rfl
  · intro fset errs f x xs hn ht
    refine ⟨?_, ?_, ?_⟩
    · rw [checkField_eq]
      simp [untaggedNamed, hn, ht]
    · simp [diagnosticOf, hn]
    · cases f with
      | mk doc names ty tag cmt =>
        simp only [Field.Names] at hn
        subst hn
        simp [Field.Pos, firstNamePos]

/-- Witness of C9: the field `A, B int`. -/
theorem C9_diagnostic_of_field_witness :
    checkField examples.fset [] examples.fieldTwoNames =
        [] ++ [diagnosticOf examples.fset examples.fieldTwoNames] ∧
    (diagnosticOf examples.fset examples.fieldTwoNames).FieldName = "A" :=
  ⟨(C9_diagnostic_of_field.2.2.2.1 examples.fset [] examples.fieldTwoNames ⟨205, "A"⟩
      [⟨208, "B"⟩] rfl rfl).1,
   (C9_diagnostic_of_field.2.2.2.1 examples.fset [] examples.fieldTwoNames ⟨205, "A"⟩
      [⟨208, "B"⟩] rfl rfl).2.1⟩

/-- C10: `Error` renders a `FieldError` as the file name, a colon, the field
name, a colon, the line in decimal, a colon and the column in decimal, where
the decimal text of a natural number is made of digits that denote it and a
negative number has a minus sign before the text of its absolute value;
`String` renders a list as the `Error` texts of its elements in order, joined
by one newline, without a newline at the end: the empty list gives the empty
string and a list of one element the text of that element. -/
theorem C10_rendering :
    (∀ e : FieldError,
      e.Error = e.FileName ++ ":" ++ e.FieldName ++ ":" ++ fmt.formatInt e.Line ++ ":" ++
        fmt.formatInt e.Column) ∧
    (∀ n : Nat, decimalValue (fmt.formatInt (n : Int)).data = n ∧
      (∀ c ∈ (fmt.formatInt (n : Int)).data, c.isDigit = true) ∧
      fmt.formatInt (-((n : Int) + 1)) = "-" ++ fmt.formatInt ((n : Int) + 1)) ∧
    (∀ l : FieldErrors, FieldErrors.String l = "\n".intercalate (l.map FieldError.Error)) ∧
    FieldErrors.String [] = "" ∧
    (∀ e : FieldError, FieldErrors.String [e] = e.Error) ∧
    (∀ (e e2 : FieldError) (l : FieldErrors),
      FieldErrors.String (e :: e2 :: l) = e.Error ++ "\n" ++ FieldErrors.String (e2 :: l)) ∧
    (FieldError.Error ⟨"a.go", "Name", 2, 5⟩ = "a.go:Name:2:5" ∧
      FieldErrors.String [⟨"a.go", "Name", 2, 5⟩, ⟨"b.go", "X", 13, 40⟩] =
        "a.go:Name:2:5\nb.go:X:13:40") := by
  refine ⟨error_eq, ?_, string_eq, rfl, ?_, ?_, by decide⟩
  · intro n
    exact ⟨(formatInt_nat n).1, (formatInt_nat n).2, formatInt_neg n⟩
  · intro e
    rw [string_eq]
    rfl
  · intro e e2 l
    rw [string_eq, string_eq]
    simp only [List.map_cons]
    rw [intercalate_cons_cons]


/-! ## Lemmas on the aggregation and the enumeration -/

/-! ### The aggregated mapping -/

theorem lookup_filter_ne (k k2 : String) (hk : k ≠ k2) : ∀ (m : FileErrs),
    List.lookup k (m.filter (fun e => e.1 ≠ k2)) = List.lookup k m
  | [] => rfl
  | (a, b) :: m => by
    have ih := lookup_filter_ne k k2 hk m
    by_cases ha : a = k2
    · subst ha
      have hka : (k == a) = false := by simpa using hk
      rw [List.filter_cons_of_neg (by simp), ih, List.lookup, hka]
    · rw [List.filter_cons_of_pos (by simpa using ha)]
      by_cases hka : k = a
      · subst hka
        simp [List.lookup]
      · have hka2 : (k == a) = false := by simpa using hka
        rw [List.lookup, List.lookup, hka2, ih]

theorem lookup_mapAssign (m : FileErrs) (k k2 : String) (v : FieldErrors) :
    List.lookup k (mapAssign m k2 v) = if k = k2 then some v else List.lookup k m := by
  unfold mapAssign
  by_cases h : k = k2
  · subst h
    simp [List.lookup]
  · have hb : (k == k2) = false := by simpa using h
    rw [List.lookup, hb, if_neg h, lookup_filter_ne k k2 h m]

theorem mem_mapAssign (m : FileErrs) (k : String) (v : FieldErrors) (e : String × FieldErrors) :
    e ∈ mapAssign m k v ↔ e = (k, v) ∨ (e ∈ m ∧ e.1 ≠ k) := by
  simp [mapAssign, List.mem_filter]

theorem keys_mapAssign_nodup (m : FileErrs) (k : String) (v : FieldErrors)
    (h : (m.map Prod.fst).Nodup) : ((mapAssign m k v).map Prod.fst).Nodup := by
  unfold mapAssign
  rw [List.map_cons, List.nodup_cons]
  constructor
  · intro hk
    obtain ⟨e, he, hek⟩ := List.mem_map.1 hk
    have := (List.mem_filter.1 he).2
    simp at this
    exact this hek
  · exact (h.sublist ((List.filter_sublist m).map Prod.fst))

theorem lookup_mainFile (fset : FileSet) (m : FileErrs) (e : String × File) (k : String) :
    List.lookup k (mainFile fset m e) =
      if k = e.1 ∧ check fset e.2 ≠ [] then some (check fset e.2) else List.lookup k m := by
  unfold mainFile
  by_cases hc : check fset e.2 = []
  · simp [hc]
  · simp only [ne_eq, hc, not_false_eq_true, if_true, and_true]
    exact lookup_mapAssign m k e.1 _

theorem lookup_foldl_other (fset : FileSet) (k : String) : ∀ (es : List (String × File))
    (m : FileErrs), k ∉ es.map Prod.fst →
    List.lookup k (es.foldl (mainFile fset) m) = List.lookup k m
  | [], m, _ => rfl
  | e :: es, m, h => by
    simp only [List.map_cons, List.mem_cons, not_or] at h
    rw [List.foldl_cons, lookup_foldl_other fset k es _ h.2, lookup_mainFile]
    simp [h.1]

theorem lookup_foldl_isSome (fset : FileSet) (k : String) : ∀ (es : List (String × File))
    (m : FileErrs),
    (List.lookup k (es.foldl (mainFile fset) m)).isSome = true ↔
      ((List.lookup k m).isSome = true ∨ ∃ file, (k, file) ∈ es ∧ check fset file ≠ [])
  | [], m => by simp
  | e :: es, m => by
    rw [List.foldl_cons, lookup_foldl_isSome fset k es, lookup_mainFile]
    constructor
    · rintro (h | ⟨file, hf, hc⟩)
      · by_cases hk : k = e.1 ∧ check fset e.2 ≠ []
        · exact Or.inr ⟨e.2, by rw [hk.1]; exact List.mem_cons_self _ _, hk.2⟩
        · rw [if_neg hk] at h
          exact Or.inl h
      · exact Or.inr ⟨file, List.mem_cons_of_mem _ hf, hc⟩
    · rintro (h | ⟨file, hf, hc⟩)
      · by_cases hk : k = e.1 ∧ check fset e.2 ≠ []
        · rw [if_pos hk]; exact Or.inl rfl
        · rw [if_neg hk]; exact Or.inl h
      · rcases List.mem_cons.1 hf with hf | hf
        · left
          have h1 : k = e.1 := by rw [← hf]
          have h2 : file = e.2 := by rw [← hf]
          rw [if_pos ⟨h1, h2 ▸ hc⟩]
          rfl
        · exact Or.inr ⟨file, hf, hc⟩

theorem lookup_foldl_value (fset : FileSet) : ∀ (es : List (String × File)) (m : FileErrs),
    (es.map Prod.fst).Nodup → ∀ (k : String) (file : File), (k, file) ∈ es →
      check fset file ≠ [] →
      List.lookup k (es.foldl (mainFile fset) m) = some (check fset file)
  | [], m, _, k, file, h, _ => by simp at h
  | e :: es, m, hn, k, file, h, hc => by
    rw [List.map_cons, List.nodup_cons] at hn
    rw [List.foldl_cons]
    rcases List.mem_cons.1 h with h | h
    · have h1 : k = e.1 := by rw [← h]
      have h2 : file = e.2 := by rw [← h]
      rw [lookup_foldl_other fset k es _ (h1 ▸ hn.1), lookup_mainFile,
        if_pos ⟨h1, h2 ▸ hc⟩, h2]
    · exact lookup_foldl_value fset es _ hn.2 k file h hc

theorem foldl_mainFile_values (fset : FileSet) : ∀ (es : List (String × File)) (m : FileErrs),
    (∀ e ∈ m, e.2 ≠ []) → ∀ e ∈ es.foldl (mainFile fset) m, e.2 ≠ []
  | [], m, h => h
  | x :: es, m, h => by
    rw [List.foldl_cons]
    apply foldl_mainFile_values fset es
    intro e he
    unfold mainFile at he
    by_cases hc : check fset x.2 = []
    · simp only [hc, ne_eq, not_true_eq_false, if_false] at he
      exact h e he
    · simp only [ne_eq, hc, not_false_eq_true, if_true] at he
      rcases (mem_mapAssign m x.1 _ e).1 he with he | he
      · rw [he]; exact hc
      · exact h e he.1

theorem foldl_mainFile_nodup (fset : FileSet) : ∀ (es : List (String × File)) (m : FileErrs),
    (m.map Prod.fst).Nodup → ((es.foldl (mainFile fset) m).map Prod.fst).Nodup
  | [], m, h => h
  | x :: es, m, h => by
    rw [List.foldl_cons]
    apply foldl_mainFile_nodup fset es
    unfold mainFile
    by_cases hc : check fset x.2 = []
    · simpa [hc] using h
    · simp only [ne_eq, hc, not_false_eq_true, if_true]
      exact keys_mapAssign_nodup m x.1 _ h

theorem mainLoop_eq (fset : FileSet) (pkgs : List (String × Package)) :
    mainLoop fset pkgs = (allFiles pkgs).foldl (mainFile fset) [] := by
  unfold mainLoop allFiles
  generalize ([] : FileErrs) = m
  induction pkgs generalizing m with
  | nil => rfl
  | cons p ps ih =>
    rw [List.foldl_cons, ih, List.flatMap_cons, List.foldl_append]

theorem nodup_keys_unique {α : Type} : ∀ (l : List (String × α)), (l.map Prod.fst).Nodup →
    ∀ (k : String) (a b : α), (k, a) ∈ l → (k, b) ∈ l → a = b
  | [], _, k, a, b, h, _ => by simp at h
  | e :: l, hn, k, a, b, ha, hb => by
    rw [List.map_cons, List.nodup_cons] at hn
    rcases List.mem_cons.1 ha with ha | ha <;> rcases List.mem_cons.1 hb with hb | hb
    · have := ha.trans hb.symm
      exact (Prod.mk.inj this).2
    · exact absurd (List.mem_map.2 ⟨(k, b), hb, by rw [← ha]⟩) hn.1
    · exact absurd (List.mem_map.2 ⟨(k, a), ha, by rw [← hb]⟩) hn.1
    · exact nodup_keys_unique l hn.2 k a b ha hb


/-! ### Enumeration of the field occurrences -/

theorem structFieldsNodes_append (skip : Finset String) (ex : Bool) :
    ∀ (ns₁ ns₂ : List Node),
      structFieldsNodes skip ex (ns₁ ++ ns₂) =
        structFieldsNodes skip ex ns₁ ++ structFieldsNodes skip ex ns₂
  | [], ns₂ => by simp [structFieldsNodes]
  | n :: ns₁, ns₂ => by
    have ih := structFieldsNodes_append skip ex ns₁ ns₂
    rw [List.cons_append]
    simp only [structFieldsNodes]
    rw [ih, List.append_assoc]

theorem structDeclNamesNodes_mem {nm : String} : ∀ {ns : List Node} {n : Node}, n ∈ ns →
    nm ∈ structDeclNames n → nm ∈ structDeclNamesNodes ns
  | m :: ns, n, hn, h => by
    simp only [structDeclNamesNodes, List.mem_append]
    rcases List.mem_cons.1 hn with hn | hn
    · exact Or.inl (hn ▸ h)
    · exact Or.inr (structDeclNamesNodes_mem hn h)

theorem structDeclNamesFields_mem {nm : String} : ∀ {fs : List Field} {f : Field}, f ∈ fs →
    nm ∈ structDeclNamesField f → nm ∈ structDeclNamesFields fs
  | m :: fs, f, hf, h => by
    simp only [structDeclNamesFields, List.mem_append]
    rcases List.mem_cons.1 hf with hf | hf
    · exact Or.inl (hf ▸ h)
    · exact Or.inr (structDeclNamesFields_mem hf h)

theorem structFieldsNodes_congr {skip skip2 : Finset String} :
    ∀ (ns : List Node),
      (∀ n ∈ ns, ∀ ex own, structFields skip2 ex own n = structFields skip ex own n) →
      ∀ ex, structFieldsNodes skip2 ex ns = structFieldsNodes skip ex ns
  | [], _, ex => by simp [structFieldsNodes]
  | n :: ns, h, ex => by
    simp only [structFieldsNodes]
    rw [h n (List.mem_cons_self _ _),
      structFieldsNodes_congr ns (fun m hm => h m (List.mem_cons_of_mem _ hm))]

theorem structFieldsFields_congr {skip skip2 : Finset String} :
    ∀ (fs : List Field),
      (∀ f ∈ fs, ∀ ex, structFieldsField skip2 ex f = structFieldsField skip ex f) →
      ∀ ex, structFieldsFields skip2 ex fs = structFieldsFields skip ex fs
  | [], _, ex => by simp [structFieldsFields]
  | f :: fs, h, ex => by
    simp only [structFieldsFields]
    rw [h f (List.mem_cons_self _ _),
      structFieldsFields_congr fs (fun m hm => h m (List.mem_cons_of_mem _ hm))]

/-- Two exemption sets that agree on the names of the struct declarations of
a tree give the same enumeration. -/
theorem structFields_congr_all (skip skip2 : Finset String) :
    (∀ n, (∀ nm ∈ structDeclNames n, (nm ∈ skip2 ↔ nm ∈ skip)) →
      ∀ ex own, structFields skip2 ex own n = structFields skip ex own n) ∧
    (∀ f, (∀ nm ∈ structDeclNamesField f, (nm ∈ skip2 ↔ nm ∈ skip)) →
      ∀ ex, structFieldsField skip2 ex f = structFieldsField skip ex f) ∧
    (∀ l, (∀ nm ∈ structDeclNamesFieldList l, (nm ∈ skip2 ↔ nm ∈ skip)) →
      ∀ ex, structFieldsFieldList skip2 ex l = structFieldsFieldList skip ex l) ∧
    (∀ f, (∀ nm ∈ structDeclNamesFile f, (nm ∈ skip2 ↔ nm ∈ skip)) →
      ∀ ex, structFieldsFile skip2 ex f = structFieldsFile skip ex f) := by
  apply tree_induction
  · intro x _ ex own; simp [structFields]
  · intro x _ ex own; simp [structFields]
  · intro x _ ex own; simp [structFields]
  · intro x _ ex own; simp [structFields]
  · intro f ih h ex own
    simp only [structFields]
    exact ih (by simpa only [structDeclNames] using h) ex
  · intro l ih h ex own
    simp only [structFields]
    exact ih (by simpa only [structDeclNames] using h) ex
  · intro p fl inc ih h ex own
    simp only [structFields]
    rw [ih (by simpa only [structDeclNames] using h) ex]
  · intro doc nm tp a ty cmt ihtp ihty h ex own
    simp only [structDeclNames, List.mem_append] at h
    have hex : exemptDecl skip2 nm ty = exemptDecl skip nm ty := by
      unfold exemptDecl
      cases hs : isStructType ty with
      | false => rfl
      | true =>
        have := h nm.Name (Or.inl (by simp [declaredStruct, hs]))
        simp [this]
    simp only [structFields, hex]
    rw [ihty (fun x hx => h x (Or.inr (Or.inr hx)))]
    cases tp with
    | none => simp [structFieldsTypeParams]
    | some l =>
      simp only [structFieldsTypeParams]
      rw [ihtp l rfl (fun x hx => h x (Or.inr (Or.inl (by simpa [structDeclNamesTypeParams] using hx))))]
  · intro f ih h ex own
    simp only [structFields]
    exact ih (by simpa only [structDeclNames] using h) ex
  · intro p cs ih h ex own
    simp only [structFields]
    simp only [structDeclNames] at h
    exact structFieldsNodes_congr cs
      (fun n hn => ih n hn (fun x hx => h x (structDeclNamesNodes_mem hn hx))) ex
  · intro doc names ty tag cmt ih h ex
    simp only [structFieldsField]
    simp only [structDeclNamesField] at h
    cases ty with
    | none => simp [structFieldsType]
    | some t =>
      simp only [structFieldsType]
      exact ih t rfl (by simpa only [structDeclNamesType] using h) ex none
  · intro op l c ih h ex
    simp only [structFieldsFieldList]
    simp only [structDeclNamesFieldList] at h
    exact structFieldsFields_congr l
      (fun f hf => ih f hf (fun x hx => h x (structDeclNamesFields_mem hf hx))) ex
  · intro doc pkg nm decls cmts ih h ex
    simp only [structFieldsFile]
    simp only [structDeclNamesFile] at h
    exact structFieldsNodes_congr decls
      (fun n hn => ih n hn (fun x hx => h x (structDeclNamesNodes_mem hn hx))) ex

/-- An occurrence whose struct type is the type of a declaration named in the
exemption set is exempted. -/
theorem owner_exempt_all (skip : Finset String) :
    (∀ n, ∀ ex own,
      (∀ nm, own = some nm → nm ∈ skip → isStructType n = true → ex = true) →
      ∀ o ∈ structFields skip ex own n, ∀ nm, o.owner = some nm → nm ∈ skip →
        o.exempted = true) ∧
    (∀ f, ∀ ex, ∀ o ∈ structFieldsField skip ex f, ∀ nm, o.owner = some nm → nm ∈ skip →
        o.exempted = true) ∧
    (∀ l, ∀ ex, ∀ o ∈ structFieldsFieldList skip ex l, ∀ nm, o.owner = some nm → nm ∈ skip →
        o.exempted = true) ∧
    (∀ f, ∀ ex, ∀ o ∈ structFieldsFile skip ex f, ∀ nm, o.owner = some nm → nm ∈ skip →
        o.exempted = true) := by
  apply tree_induction
  · intro x ex own _ o h; simp [structFields] at h
  · intro x ex own _ o h; simp [structFields] at h
  · intro x ex own _ o h; simp [structFields] at h
  · intro x ex own _ o h; simp [structFields] at h
  · intro f ih ex own _ o h
    simp only [structFields] at h
    exact ih ex o h
  · intro l ih ex own _ o h
    simp only [structFields] at h
    exact ih ex o h
  · intro p fl inc ih ex own hpre o h nm hown hmem
    simp only [structFields, List.mem_append, List.mem_map] at h
    rcases h with ⟨f, _, rfl⟩ | h
    · exact hpre nm hown hmem rfl
    · exact ih ex o h nm hown hmem
  · intro doc nm tp a ty cmt ihtp ihty ex own _ o h
    simp only [structFields, List.mem_append] at h
    rcases h with h | h
    · cases tp with
      | none => simp [structFieldsTypeParams] at h
      | some l =>
        simp only [structFieldsTypeParams] at h
        exact ihtp l rfl _ o h
    · refine ihty _ _ ?_ o h
      intro nm2 hnm2 hmem hs
      have : nm2 = nm.Name := (Option.some.inj hnm2).symm
      subst this
      simp [exemptDecl, hs, hmem]
  · intro f ih ex own _ o h
    simp only [structFields] at h
    exact ih ex o h
  · intro p cs ih ex own _ o h
    simp only [structFields] at h
    obtain ⟨n, hn, ho⟩ := structFieldsNodes_mem h
    exact ih n hn ex none (by intro nm h; cases h) o ho
  · intro doc names ty tag cmt ih ex o h
    cases ty with
    | none => simp [structFieldsField, structFieldsType] at h
    | some t =>
      simp only [structFieldsField, structFieldsType] at h
      exact ih t rfl ex none (by intro nm h; cases h) o h
  · intro op l c ih ex o h
    simp only [structFieldsFieldList] at h
    obtain ⟨f, hf, ho⟩ := structFieldsFields_mem h
    exact ih f hf ex o ho
  · intro doc pkg nm decls cmts ih ex o h
    simp only [structFieldsFile] at h
    obtain ⟨n, hn, ho⟩ := structFieldsNodes_mem h
    exact ih n hn ex none (by intro nm h; cases h) o ho


/-! ### Growing the exemption set -/

theorem diagnostics_own_sublist (fset : FileSet) (own : Option String) (l : List Field)
    (ex ex2 : Bool) (h : ex = true → ex2 = true) :
    (diagnostics fset (l.map (fun f => ⟨f, own, ex2⟩))).Sublist
      (diagnostics fset (l.map (fun f => ⟨f, own, ex⟩))) := by
  cases ex2 with
  | true =>
    rw [diagnostics_exempted fset _ (by
      intro o ho
      obtain ⟨f, _, rfl⟩ := List.mem_map.1 ho
      rfl)]
    exact List.nil_sublist _
  | false =>
    cases ex with
    | true => exact absurd (h rfl) (by decide)
    | false => exact List.Sublist.refl _

theorem sublist_nodes (fset : FileSet) (S T : Finset String) : ∀ (ns : List Node),
    (∀ n ∈ ns, ∀ ex ex2 own, (ex = true → ex2 = true) →
      (diagnostics fset (structFields T ex2 own n)).Sublist
        (diagnostics fset (structFields S ex own n))) →
    ∀ ex ex2, (ex = true → ex2 = true) →
      (diagnostics fset (structFieldsNodes T ex2 ns)).Sublist
        (diagnostics fset (structFieldsNodes S ex ns))
  | [], _, ex, ex2, _ => by simp [structFieldsNodes, diagnostics_nil]
  | n :: ns, h, ex, ex2, hex => by
    simp only [structFieldsNodes, diagnostics_append]
    exact List.Sublist.append (h n (List.mem_cons_self _ _) ex ex2 none hex)
      (sublist_nodes fset S T ns (fun m hm => h m (List.mem_cons_of_mem _ hm)) ex ex2 hex)

theorem sublist_fields (fset : FileSet) (S T : Finset String) : ∀ (fs : List Field),
    (∀ f ∈ fs, ∀ ex ex2, (ex = true → ex2 = true) →
      (diagnostics fset (structFieldsField T ex2 f)).Sublist
        (diagnostics fset (structFieldsField S ex f))) →
    ∀ ex ex2, (ex = true → ex2 = true) →
      (diagnostics fset (structFieldsFields T ex2 fs)).Sublist
        (diagnostics fset (structFieldsFields S ex fs))
  | [], _, ex, ex2, _ => by simp [structFieldsFields, diagnostics_nil]
  | f :: fs, h, ex, ex2, hex => by
    simp only [structFieldsFields, diagnostics_append]
    exact List.Sublist.append (h f (List.mem_cons_self _ _) ex ex2 hex)
      (sublist_fields fset S T fs (fun m hm => h m (List.mem_cons_of_mem _ hm)) ex ex2 hex)

/-- With a larger exemption set and a larger exemption flag, the diagnostics
of a tree are a sublist of those with the smaller ones. -/
theorem sublist_all (fset : FileSet) (S T : Finset String) (hST : S ⊆ T) :
    (∀ n, ∀ ex ex2 own, (ex = true → ex2 = true) →
      (diagnostics fset (structFields T ex2 own n)).Sublist
        (diagnostics fset (structFields S ex own n))) ∧
    (∀ f, ∀ ex ex2, (ex = true → ex2 = true) →
      (diagnostics fset (structFieldsField T ex2 f)).Sublist
        (diagnostics fset (structFieldsField S ex f))) ∧
    (∀ l, ∀ ex ex2, (ex = true → ex2 = true) →
      (diagnostics fset (structFieldsFieldList T ex2 l)).Sublist
        (diagnostics fset (structFieldsFieldList S ex l))) ∧
    (∀ f, ∀ ex ex2, (ex = true → ex2 = true) →
      (diagnostics fset (structFieldsFile T ex2 f)).Sublist
        (diagnostics fset (structFieldsFile S ex f))) := by
  apply tree_induction
  · intro x ex ex2 own _; simp [structFields, diagnostics_nil]
  · intro x ex ex2 own _; simp [structFields, diagnostics_nil]
  · intro x ex ex2 own _; simp [structFields, diagnostics_nil]
  · intro x ex ex2 own _; simp [structFields, diagnostics_nil]
  · intro f ih ex ex2 own hex
    simp only [structFields]
    exact ih ex ex2 hex
  · intro l ih ex ex2 own hex
    simp only [structFields]
    exact ih ex ex2 hex
  · intro p fl inc ih ex ex2 own hex
    simp only [structFields, diagnostics_append]
    exact List.Sublist.append (diagnostics_own_sublist fset own fl.List ex ex2 hex)
      (ih ex ex2 hex)
  · intro doc nm tp a ty cmt ihtp ihty ex ex2 own hex
    have hex2 : (ex || exemptDecl S nm ty) = true → (ex2 || exemptDecl T nm ty) = true := by
      intro h
      rcases Bool.or_eq_true _ _ ▸ h with h | h
      · simp [hex h]
      · simp only [exemptDecl, Bool.and_eq_true, decide_eq_true_eq] at h
        simp [exemptDecl, h.1, hST h.2]
    simp only [structFields, diagnostics_append]
    refine List.Sublist.append ?_ (ihty _ _ _ hex2)
    cases tp with
    | none => simp [structFieldsTypeParams, diagnostics_nil]
    | some l =>
      simp only [structFieldsTypeParams]
      exact ihtp l rfl _ _ hex2
  · intro f ih ex ex2 own hex
    simp only [structFields]
    exact ih ex ex2 hex
  · intro p cs ih ex ex2 own hex
    simp only [structFields]
    exact sublist_nodes fset S T cs ih ex ex2 hex
  · intro doc names ty tag cmt ih ex ex2 hex
    simp only [structFieldsField]
    cases ty with
    | none => simp [structFieldsType, diagnostics_nil]
    | some t =>
      simp only [structFieldsType]
      exact ih t rfl ex ex2 none hex
  · intro op l c ih ex ex2 hex
    simp only [structFieldsFieldList]
    exact sublist_fields fset S T l ih ex ex2 hex
  · intro doc pkg nm decls cmts ih ex ex2 hex
    simp only [structFieldsFile]
    exact sublist_nodes fset S T decls ih ex ex2 hex

theorem inspect_eq (fset : FileSet) (skip : Finset String) (n : Node) (errs : FieldErrors) :
    Inspect (checkVisit fset skip) n errs =
      errs ++ diagnostics fset (structFields skip false none n) :=
  (inspect_check_all fset skip).1 n none errs

theorem inspect_append (fset : FileSet) (skip : Finset String) (n : Node)
    (errs : FieldErrors) :
    Inspect (checkVisit fset skip) n errs = errs ++ Inspect (checkVisit fset skip) n [] := by
  rw [inspect_eq, inspect_eq fset skip n []]
  simp

theorem inspectNodes_eq (fset : FileSet) (skip : Finset String) (ns : List Node)
    (errs : FieldErrors) :
    inspectNodes (checkVisit fset skip) ns errs =
      errs ++ diagnostics fset (structFieldsNodes skip false ns) :=
  inspectNodes_of fset skip ns (fun n _ => (inspect_check_all fset skip).1 n) errs

theorem inspectFieldList_eq (fset : FileSet) (skip : Finset String) (l : FieldList)
    (errs : FieldErrors) :
    inspectFieldList (checkVisit fset skip) l errs =
      errs ++ diagnostics fset (structFieldsFieldList skip false l) :=
  (inspect_check_all fset skip).2.2.1 l errs

theorem inspectField_eq (fset : FileSet) (skip : Finset String) (f : Field)
    (errs : FieldErrors) :
    inspectField (checkVisit fset skip) f errs =
      errs ++ diagnostics fset (structFieldsField skip false f) :=
  (inspect_check_all fset skip).2.1 f errs


/-! ### The mapping of `main` by file -/

theorem lookup_mainLoop_of_mem (fset : FileSet) (pkgs : List (String × Package))
    (hn : ((allFiles pkgs).map Prod.fst).Nodup) (name : String) (file : File)
    (hf : (name, file) ∈ allFiles pkgs) :
    List.lookup name (mainLoop fset pkgs) =
      if check fset file = [] then none else some (check fset file) := by
  rw [mainLoop_eq]
  by_cases hc : check fset file = []
  · rw [if_pos hc]
    cases hl : List.lookup name ((allFiles pkgs).foldl (mainFile fset) []) with
    | none => rfl
    | some v =>
      have h1 : (List.lookup name ((allFiles pkgs).foldl (mainFile fset) [])).isSome = true := by
        rw [hl]; rfl
      rw [lookup_foldl_isSome] at h1
      rcases h1 with h1 | ⟨file2, hf2, hc2⟩
      · simp at h1
      · have := nodup_keys_unique (allFiles pkgs) hn name file file2 hf hf2
        exact absurd (this ▸ hc) hc2
  · rw [if_neg hc]
    exact lookup_foldl_value fset (allFiles pkgs) [] hn name file hf hc

theorem lookup_mainLoop_of_not_mem (fset : FileSet) (pkgs : List (String × Package))
    (name : String) (h : name ∉ (allFiles pkgs).map Prod.fst) :
    List.lookup name (mainLoop fset pkgs) = none := by
  rw [mainLoop_eq, lookup_foldl_other fset name _ [] h]
  rfl

theorem lookup_mainLoop_perm (fset : FileSet) (pkgs pkgs2 : List (String × Package))
    (hn : ((allFiles pkgs).map Prod.fst).Nodup)
    (hp : (allFiles pkgs).Perm (allFiles pkgs2)) (name : String) :
    List.lookup name (mainLoop fset pkgs) = List.lookup name (mainLoop fset pkgs2) := by
  have hn2 : ((allFiles pkgs2).map Prod.fst).Nodup := (hp.map Prod.fst).nodup_iff.1 hn
  by_cases hk : name ∈ (allFiles pkgs).map Prod.fst
  · obtain ⟨e, he, hek⟩ := List.mem_map.1 hk
    have he1 : (name, e.2) ∈ allFiles pkgs := by rw [← hek]; exact he
    rw [lookup_mainLoop_of_mem fset pkgs hn name e.2 he1,
      lookup_mainLoop_of_mem fset pkgs2 hn2 name e.2 (hp.mem_iff.1 he1)]
  · have hk2 : name ∉ (allFiles pkgs2).map Prod.fst := fun h =>
      hk ((hp.map Prod.fst).mem_iff.2 h)
    rw [lookup_mainLoop_of_not_mem fset pkgs name hk,
      lookup_mainLoop_of_not_mem fset pkgs2 name hk2]

/-! ### The walk of a struct type and of a file -/

theorem inspect_structType (fset : FileSet) (skip : Finset String) (p : Pos) (fl : FieldList)
    (inc : Bool) (errs : FieldErrors) :
    Inspect (checkVisit fset skip) (.structType p fl inc) errs =
      errs ++ (fl.List.filter untaggedNamed).map (diagnosticOf fset) ++
        inspectFieldList (checkVisit fset skip) fl [] := by
  simp only [Inspect, checkVisit_structType, checkVisit_none, if_true]
  rw [inspectFieldList_eq, inspectFieldList_eq fset skip fl [], foldl_checkField]
  simp

theorem check_eq_decls (fset : FileSet) (file : File) :
    check fset file =
      diagnostics fset (structFieldsNodes (collectSkipStructs file) false file.Decls) := by
  unfold check
  rw [inspect_eq]
  cases file with
  | mk doc pkg nm decls cmts => simp [structFields, structFieldsFile, File.Decls]

theorem sameTree_decls {file file2 : File} (h : sameTree file file2) :
    file.Decls = file2.Decls := by
  cases file with
  | mk doc pkg nm decls cmts =>
    cases file2 with
    | mk doc2 pkg2 nm2 decls2 cmts2 => exact h.2.2.2

theorem structDeclNames_file (file : File) :
    structDeclNames (.file file) = structDeclNamesNodes file.Decls := by
  cases file with
  | mk doc pkg nm decls cmts => simp [structDeclNames, structDeclNamesFile, File.Decls]

theorem structFieldsNodes_congr_names (skip skip2 : Finset String) (ns : List Node)
    (h : ∀ nm ∈ structDeclNamesNodes ns, (nm ∈ skip2 ↔ nm ∈ skip)) (ex : Bool) :
    structFieldsNodes skip2 ex ns = structFieldsNodes skip ex ns :=
  structFieldsNodes_congr ns
    (fun n hn => (structFields_congr_all skip skip2).1 n
      (fun x hx => h x (structDeclNamesNodes_mem hn hx))) ex

/-! ### Trees without struct types -/

theorem structFieldsNodes_nil {skip : Finset String} : ∀ (ns : List Node),
    (∀ n ∈ ns, countStructTypes n = 0 → ∀ ex own, structFields skip ex own n = []) →
    countStructTypesNodes ns = 0 → ∀ ex, structFieldsNodes skip ex ns = []
  | [], _, _, ex => by simp [structFieldsNodes]
  | n :: ns, h, hc, ex => by
    simp only [countStructTypesNodes, Nat.add_eq_zero] at hc
    simp only [structFieldsNodes]
    rw [h n (List.mem_cons_self _ _) hc.1,
      structFieldsNodes_nil ns (fun m hm => h m (List.mem_cons_of_mem _ hm)) hc.2]
    rfl

theorem structFieldsFields_nil {skip : Finset String} : ∀ (fs : List Field),
    (∀ f ∈ fs, countStructTypesField f = 0 → ∀ ex, structFieldsField skip ex f = []) →
    countStructTypesFields fs = 0 → ∀ ex, structFieldsFields skip ex fs = []
  | [], _, _, ex => by simp [structFieldsFields]
  | f :: fs, h, hc, ex => by
    simp only [countStructTypesFields, Nat.add_eq_zero] at hc
    simp only [structFieldsFields]
    rw [h f (List.mem_cons_self _ _) hc.1,
      structFieldsFields_nil fs (fun m hm => h m (List.mem_cons_of_mem _ hm)) hc.2]
    rfl

/-- A tree without struct type nodes has no field occurrence. -/
theorem structFields_nil_all (skip : Finset String) :
    (∀ n, countStructTypes n = 0 → ∀ ex own, structFields skip ex own n = []) ∧
    (∀ f, countStructTypesField f = 0 → ∀ ex, structFieldsField skip ex f = []) ∧
    (∀ l, countStructTypesFieldList l = 0 → ∀ ex, structFieldsFieldList skip ex l = []) ∧
    (∀ f, countStructTypesFile f = 0 → ∀ ex, structFieldsFile skip ex f = []) := by
  apply tree_induction
  · intro x _ ex own; simp [structFields]
  · intro x _ ex own; simp [structFields]
  · intro x _ ex own; simp [structFields]
  · intro x _ ex own; simp [structFields]
  · intro f ih h ex own
    simp only [structFields]
    exact ih (by simpa only [countStructTypes] using h) ex
  · intro l ih h ex own
    simp only [structFields]
    exact ih (by simpa only [countStructTypes] using h) ex
  · intro p fl inc ih h ex own
    simp only [countStructTypes] at h
    exact absurd h (Nat.succ_ne_zero _)
  · intro doc nm tp a ty cmt ihtp ihty h ex own
    simp only [countStructTypes, Nat.add_eq_zero] at h
    simp only [structFields]
    rw [ihty h.2]
    cases tp with
    | none => simp [structFieldsTypeParams]
    | some l =>
      simp only [structFieldsTypeParams]
      rw [ihtp l rfl (by simpa only [countStructTypesTypeParams] using h.1)]
      rfl
  · intro f ih h ex own
    simp only [structFields]
    exact ih (by simpa only [countStructTypes] using h) ex
  · intro p cs ih h ex own
    simp only [structFields]
    exact structFieldsNodes_nil cs ih (by simpa only [countStructTypes] using h) ex
  · intro doc names ty tag cmt ih h ex
    simp only [structFieldsField]
    simp only [countStructTypesField] at h
    cases ty with
    | none => simp [structFieldsType]
    | some t =>
      simp only [structFieldsType]
      exact ih t rfl (by simpa only [countStructTypesType] using h) ex none
  · intro op l c ih h ex
    simp only [structFieldsFieldList]
    exact structFieldsFields_nil l ih (by simpa only [countStructTypesFieldList] using h) ex
  · intro doc pkg nm decls cmts ih h ex
    simp only [structFieldsFile]
    exact structFieldsNodes_nil decls ih (by simpa only [countStructTypesFile] using h) ex

theorem check_nil_of_no_struct (fset : FileSet) (file : File)
    (h : countStructTypes (.file file) = 0) : check fset file = [] := by
  unfold check
  rw [inspect_eq, (structFields_nil_all _).1 (.file file) h]
  rfl

/-! ## Claims on aggregation, order and exemption -/

/-- C11, as stated, fails in its last clause: the file `var v struct { X int }`
holds no struct declaration, `check` reports the field `X` of its struct type,
and the file is a key of the mapping built by `main`. -/
theorem C11_counterexample :
    structDeclNames (.file (examples.fileVar [])) = [] ∧
    check examples.fset (examples.fileVar []) = [⟨"a.go", "X", 2, 5⟩] ∧
    mainLoop examples.fset [("main", ⟨"main", [("a.go", examples.fileVar [])]⟩)] =
      [("a.go", [⟨"a.go", "X", 2, 5⟩])] ∧
    (List.lookup "a.go"
      (mainLoop examples.fset [("main", ⟨"main", [("a.go", examples.fileVar [])]⟩)])).isSome =
      true := by
  decide

/-- C11, amended: for every collection of parsed files, a file name is a key
of the mapping built by `main` if and only if `check` returns at least one
diagnostic for a file of that name; when file names are distinct, as the keys
of the parsed files are, the value of a file with diagnostics is exactly its
`check` result and a file without diagnostics has no entry; no value of the
mapping is the empty list, and no key occurs twice.  A file without any
struct type node, declared or not, has no diagnostic and no entry. -/
theorem C11_aggregated_mapping :
    (∀ (fset : FileSet) (pkgs : List (String × Package)) (name : String),
      (List.lookup name (mainLoop fset pkgs)).isSome = true ↔
        ∃ file, (name, file) ∈ allFiles pkgs ∧ check fset file ≠ []) ∧
    (∀ (fset : FileSet) (pkgs : List (String × Package)),
      ((allFiles pkgs).map Prod.fst).Nodup →
      ∀ (name : String) (file : File), (name, file) ∈ allFiles pkgs →
        List.lookup name (mainLoop fset pkgs) =
          if check fset file = [] then none else some (check fset file)) ∧
    (∀ (fset : FileSet) (pkgs : List (String × Package)),
      (∀ e ∈ mainLoop fset pkgs, e.2 ≠ []) ∧ ((mainLoop fset pkgs).map Prod.fst).Nodup) ∧
    (∀ (fset : FileSet) (file : File), countStructTypes (.file file) = 0 →
      check fset file = [] ∧
      ∀ (pkgs : List (String × Package)) (name : String),
        ((allFiles pkgs).map Prod.fst).Nodup → (name, file) ∈ allFiles pkgs →
        List.lookup name (mainLoop fset pkgs) = none) ∧
    (countStructTypes (.file examples.fileNoStructs) = 0 ∧
      check examples.fset examples.fileNoStructs = [] ∧
      mainLoop examples.fset
        [("main", ⟨"main", [("a.go", examples.fileFoo), ("c.go", examples.fileNoStructs)]⟩)] =
        [("a.go", [⟨"a.go", "Name", 2, 5⟩])]) := by
  refine ⟨?_, ?_, ?_, ?_, by decide⟩
  · intro fset pkgs name
    rw [mainLoop_eq, lookup_foldl_isSome]
    simp
  · intro fset pkgs hn name file hf
    exact lookup_mainLoop_of_mem fset pkgs hn name file hf
  · intro fset pkgs
    rw [mainLoop_eq]
    exact ⟨foldl_mainFile_values fset _ [] (by simp),
      foldl_mainFile_nodup fset _ [] (by simp)⟩
  · intro fset file hc
    have hnil := check_nil_of_no_struct fset file hc
    refine ⟨hnil, ?_⟩
    intro pkgs name hn hf
    rw [lookup_mainLoop_of_mem fset pkgs hn name file hf, if_pos hnil]

/-- Witness of C11: a package with the files `a.go`, which has a diagnostic,
and `c.go`, which has no struct type and no entry. -/
theorem C11_aggregated_mapping_witness :
    ((allFiles [("main", ⟨"main", [("a.go", examples.fileFoo),
        ("c.go", examples.fileNoStructs)]⟩)]).map Prod.fst).Nodup ∧
    countStructTypes (.file examples.fileNoStructs) = 0 ∧
    List.lookup "c.go" (mainLoop examples.fset
        [("main", ⟨"main", [("a.go", examples.fileFoo), ("c.go", examples.fileNoStructs)]⟩)]) =
      none ∧
    List.lookup "a.go" (mainLoop examples.fset
        [("main", ⟨"main", [("a.go", examples.fileFoo), ("c.go", examples.fileNoStructs)]⟩)]) =
      (if check examples.fset examples.fileFoo = [] then none
        else some (check examples.fset examples.fileFoo)) :=
  ⟨by decide, by decide,
   (C11_aggregated_mapping.2.2.2.1 examples.fset examples.fileNoStructs (by decide)).2
    [("main", ⟨"main", [("a.go", examples.fileFoo), ("c.go", examples.fileNoStructs)]⟩)]
    "c.go" (by decide) (by simp [allFiles]),
   C11_aggregated_mapping.2.1 examples.fset
    [("main", ⟨"main", [("a.go", examples.fileFoo), ("c.go", examples.fileNoStructs)]⟩)]
    (by decide) "a.go" examples.fileFoo (by simp [allFiles])⟩


/-- C12: the diagnostics of `check` come in the order of one pre-order walk.
The walk of a struct type first appends the diagnostics of its own offending
fields, consecutively and in declaration order, then those of the struct types
inside the types of its fields; the walk of a list of sibling nodes appends
all diagnostics of the earlier siblings before those of the later ones; the
result for a file is an order-preserving selection from the pre-order
enumeration of the field occurrences.  The list is not sorted by position: for
`type T struct { A struct { X int }; B int }` the field `B` of line 4 is
reported before the field `X` of line 3. -/
theorem C12_preorder_order :
    (∀ (fset : FileSet) (skip : Finset String) (p : Pos) (fl : FieldList) (inc : Bool)
        (errs : FieldErrors),
      Inspect (checkVisit fset skip) (.structType p fl inc) errs =
        errs ++ (fl.List.filter untaggedNamed).map (diagnosticOf fset) ++
          inspectFieldList (checkVisit fset skip) fl []) ∧
    (∀ (fset : FileSet) (skip : Finset String) (ns₁ ns₂ : List Node) (errs : FieldErrors),
      inspectNodes (checkVisit fset skip) (ns₁ ++ ns₂) errs =
        errs ++ inspectNodes (checkVisit fset skip) ns₁ [] ++
          inspectNodes (checkVisit fset skip) ns₂ []) ∧
    (∀ (fset : FileSet) (file : File),
      check fset file = (reported file).map (fun o => diagnosticOf fset o.field) ∧
      (reported file).Sublist
        (structFields (collectSkipStructs file) false none (.file file))) ∧
    (check examples.fset examples.fileOrder =
        [⟨"a.go", "A", 2, 5⟩, ⟨"a.go", "B", 4, 5⟩, ⟨"a.go", "X", 3, 5⟩] ∧
      check examples.fset examples.fileSiblings =
        [⟨"a.go", "A", 2, 5⟩, ⟨"a.go", "B", 4, 5⟩]) := by
  refine ⟨inspect_structType, ?_, ?_, by decide⟩
  · intro fset skip ns₁ ns₂ errs
    rw [inspectNodes_eq, inspectNodes_eq fset skip ns₁ [], inspectNodes_eq fset skip ns₂ [],
      structFieldsNodes_append, diagnostics_append]
    simp
  · intro fset file
    exact ⟨check_eq_reported fset file, List.filter_sublist _⟩

/-- C13: exemption goes by the declared name alone.  In every file, every
field occurrence of a struct type that is the type of a declaration whose name
is in the exemption set is exempted and not reported, wherever the declaration
stands; no reported field belongs to such a declaration.  With the comment
`// notagcheck:Foo`, both a top-level `type Foo struct` and a `type Foo struct`
declared in a function body are exempt, and both are reported without the
comment. -/
theorem C13_exempt_by_name :
    (∀ (skip : Finset String) (file : File),
      ∀ o ∈ structFields skip false none (.file file), ∀ nm : String,
        o.owner = some nm → nm ∈ skip → o.exempted = true ∧ offending o = false) ∧
    (∀ (fset : FileSet) (file : File),
      check fset file = (reported file).map (fun o => diagnosticOf fset o.field) ∧
      ∀ o ∈ reported file, ∀ nm : String, o.owner = some nm → nm ∉ collectSkipStructs file) ∧
    (check examples.fset (examples.fileLocal ["// notagcheck:Foo"]) = [] ∧
      check examples.fset (examples.fileLocal []) =
        [⟨"a.go", "Name", 2, 5⟩, ⟨"a.go", "Id", 6, 5⟩]) := by
  have key : ∀ (skip : Finset String) (file : File),
      ∀ o ∈ structFields skip false none (.file file), ∀ nm : String,
        o.owner = some nm → nm ∈ skip → o.exempted = true := by
    intro skip file o ho nm hown hmem
    exact (owner_exempt_all skip).1 (.file file) false none (by intro nm h; cases h) o ho nm
      hown hmem
  refine ⟨?_, ?_, by decide⟩
  · intro skip file o ho nm hown hmem
    have hx := key skip file o ho nm hown hmem
    exact ⟨hx, by simp [offending, hx]⟩
  · intro fset file
    refine ⟨check_eq_reported fset file, ?_⟩
    intro o ho nm hown hmem
    have hmemo := (List.mem_filter.1 ho).1
    have hoff := (List.mem_filter.1 ho).2
    have hx := key _ file o hmemo nm hown hmem
    simp [offending, hx] at hoff

/-- Witness of C13: the field `Name` of `type Foo struct { Name string }`
with `Foo` in the exemption set. -/
theorem C13_exempt_by_name_witness :
    (⟨examples.namedField 205 "Name" (examples.typeName 210 "string") none, some "Foo",
        true⟩ : FieldOcc) ∈
      structFields {"Foo"} false none (.file examples.fileFooExempt) ∧
    "Foo" ∈ ({"Foo"} : Finset String) ∧
    offending ⟨examples.namedField 205 "Name" (examples.typeName 210 "string") none,
      some "Foo", true⟩ = false :=
  ⟨List.mem_singleton.2 rfl, by decide,
   (C13_exempt_by_name.1 {"Foo"} examples.fileFooExempt
    ⟨examples.namedField 205 "Name" (examples.typeName 210 "string") none, some "Foo", true⟩
    (List.mem_singleton.2 rfl) "Foo" rfl (by decide)).2⟩


/-- C14: the exemption set `check` uses for a file is the set collected from
the comments of that file and nothing else: the walk runs with
`collectSkipStructs file`, which is the union of the names of the comment
lines of the file.  The entry `main` builds for a file does not depend on the
order in which the files are visited.  For two files that each declare
`type Foo struct { Name string }`, only the first with the comment
`// notagcheck:Foo`, `check` reports nothing for the first and the field of
the second, and `main` builds the same mapping in both orders. -/
theorem C14_exemption_set_per_file :
    (∀ (fset : FileSet) (file : File),
      check fset file =
        Inspect (checkVisit fset (collectSkipStructs file)) (.file file) []) ∧
    (∀ (file : File),
      collectSkipStructs file = (commentLines file).toFinset.biUnion commentNames) ∧
    (∀ (fset : FileSet) (pkgs pkgs2 : List (String × Package)),
      ((allFiles pkgs).map Prod.fst).Nodup → (allFiles pkgs).Perm (allFiles pkgs2) →
      ∀ name : String,
        List.lookup name (mainLoop fset pkgs) = List.lookup name (mainLoop fset pkgs2)) ∧
    (check examples.fsetTwo examples.fileFooExempt = [] ∧
      check examples.fsetTwo examples.fileFooB = [⟨"b.go", "Name", 2, 5⟩]) ∧
    (mainLoop examples.fsetTwo
        [("main", ⟨"main", [("a.go", examples.fileFooExempt), ("b.go", examples.fileFooB)]⟩)] =
        [("b.go", [⟨"b.go", "Name", 2, 5⟩])] ∧
      mainLoop examples.fsetTwo
        [("main", ⟨"main", [("b.go", examples.fileFooB), ("a.go", examples.fileFooExempt)]⟩)] =
        [("b.go", [⟨"b.go", "Name", 2, 5⟩])]) := by
  refine ⟨fun fset file => rfl, ?_, lookup_mainLoop_perm, by decide, by decide⟩
  intro file
  ext name
  rw [mem_collectSkipStructs]
  simp

/-- Witness of C14: the two files in both orders. -/
theorem C14_exemption_set_per_file_witness :
    ((allFiles [("main", ⟨"main", [("a.go", examples.fileFooExempt),
        ("b.go", examples.fileFooB)]⟩)]).map Prod.fst).Nodup ∧
    List.lookup "b.go" (mainLoop examples.fsetTwo
        [("main", ⟨"main", [("a.go", examples.fileFooExempt), ("b.go", examples.fileFooB)]⟩)]) =
      List.lookup "b.go" (mainLoop examples.fsetTwo
        [("main", ⟨"main", [("b.go", examples.fileFooB), ("a.go", examples.fileFooExempt)]⟩)]) :=
  ⟨by decide,
   C14_exemption_set_per_file.2.2.1 examples.fsetTwo
    [("main", ⟨"main", [("a.go", examples.fileFooExempt), ("b.go", examples.fileFooB)]⟩)]
    [("main", ⟨"main", [("b.go", examples.fileFooB), ("a.go", examples.fileFooExempt)]⟩)]
    (by decide) (List.Perm.swap _ _ []) "b.go"⟩

/-- C15: a name that is not the declared name of any struct declaration of
the tree can be added to the exemption set without any effect: the walk of
every tree gives the same diagnostics, in the same order, and so does `check`
for two files with the same tree whose exemption sets differ by that name.
No error can arise: the functions are total.  For the file
`type Foo struct { Name string }` the comment `// notagcheck:Bar` changes
nothing. -/
theorem C15_unused_name_no_effect :
    (∀ (fset : FileSet) (skip : Finset String) (name : String) (n : Node)
        (errs : FieldErrors), name ∉ structDeclNames n →
      Inspect (checkVisit fset (insert name skip)) n errs =
        Inspect (checkVisit fset skip) n errs) ∧
    (∀ (fset : FileSet) (file file2 : File) (name : String), sameTree file file2 →
      collectSkipStructs file2 = insert name (collectSkipStructs file) →
      name ∉ structDeclNames (.file file) →
      check fset file2 = check fset file) ∧
    (check examples.fset (examples.sourceFile [examples.declFoo] ["// notagcheck:Bar"]) =
        check examples.fset examples.fileFoo ∧
      check examples.fset (examples.fileLocal ["// notagcheck:Name,Id,f,struct"]) =
        check examples.fset (examples.fileLocal [])) := by
  have hiff : ∀ (skip : Finset String) (name : String) (names : List String),
      name ∉ names → ∀ nm ∈ names, (nm ∈ insert name skip ↔ nm ∈ skip) := by
    intro skip name names hn nm hnm
    have : nm ≠ name := fun h => hn (h ▸ hnm)
    simp [this]
  refine ⟨?_, ?_, by decide⟩
  · intro fset skip name n errs hn
    rw [inspect_eq, inspect_eq,
      (structFields_congr_all skip (insert name skip)).1 n (hiff skip name _ hn)]
  · intro fset file file2 name hs hc hn
    rw [check_eq_decls, check_eq_decls, hc, ← sameTree_decls hs]
    rw [structDeclNames_file] at hn
    rw [structFieldsNodes_congr_names _ _ _ (hiff _ name _ hn)]

/-- Witness of C15: the name `Bar` and the file `type Foo struct { Name string }`. -/
theorem C15_unused_name_no_effect_witness :
    sameTree examples.fileFoo (examples.sourceFile [examples.declFoo] ["// notagcheck:Bar"]) ∧
    "Bar" ∉ structDeclNames (.file examples.fileFoo) ∧
    check examples.fset (examples.sourceFile [examples.declFoo] ["// notagcheck:Bar"]) =
      check examples.fset examples.fileFoo :=
  ⟨⟨rfl, rfl, rfl, rfl⟩, by decide,
   C15_unused_name_no_effect.2.1 examples.fset examples.fileFoo
    (examples.sourceFile [examples.declFoo] ["// notagcheck:Bar"]) "Bar"
    ⟨rfl, rfl, rfl, rfl⟩ (by decide) (by decide)⟩

/-- C16: `check` is a function of the parsed file and the position resolver.
Its walk only appends to the diagnostics it starts with, and each call starts
from its own empty list, so any two runs on the same input give the same list,
contents and order; the result depends on the file only through its tree and
the exemption set of its comments, and on the resolver only through the
positions of the reported fields. -/
theorem C16_deterministic :
    (∀ (fset : FileSet) (file : File) (r1 r2 : FieldErrors),
      r1 = check fset file → r2 = check fset file → r1 = r2) ∧
    (∀ (fset : FileSet) (file : File) (errs : FieldErrors),
      Inspect (checkVisit fset (collectSkipStructs file)) (.file file) errs =
        errs ++ check fset file) ∧
    (∀ (fset : FileSet) (file file2 : File), sameTree file file2 →
      collectSkipStructs file = collectSkipStructs file2 →
      check fset file = check fset file2) ∧
    (∀ (fset fset2 : FileSet) (file : File),
      (∀ o ∈ reported file, fset o.field.Pos = fset2 o.field.Pos) →
      check fset file = check fset2 file) := by
  refine ⟨?_, ?_, ?_, ?_⟩
  · intro fset file r1 r2 h1 h2
    rw [h1, h2]
  · intro fset file errs
    unfold check
    exact inspect_append fset _ _ errs
  · intro fset file file2 hs hc
    rw [check_eq_decls, check_eq_decls, hc, sameTree_decls hs]
  · intro fset fset2 file h
    rw [check_eq_reported, check_eq_reported]
    apply List.map_congr_left
    intro o ho
    simp only [diagnosticOf, h o ho]

/-- Witness of C16: the file `type Foo struct { Name string }` with two
comment lists that collect the same exemption set. -/
theorem C16_deterministic_witness :
    sameTree (examples.sourceFile [examples.declFoo] ["// notagcheck:Bar,Baz"])
      (examples.sourceFile [examples.declFoo] ["// notagcheck:Baz", "// notagcheck:Bar"]) ∧
    check examples.fset (examples.sourceFile [examples.declFoo] ["// notagcheck:Bar,Baz"]) =
      check examples.fset
        (examples.sourceFile [examples.declFoo] ["// notagcheck:Baz", "// notagcheck:Bar"]) :=
  ⟨⟨rfl, rfl, rfl, rfl⟩,
   C16_deterministic.2.2.1 examples.fset _ _ ⟨rfl, rfl, rfl, rfl⟩ (by decide)⟩


/-- C17, as stated, fails in its second part: in the file with the comment
`// notagcheck:Foo` and `type Foo struct { In struct { X int } }`, the inline
struct type of `In` is not the type of a type declaration, its field `X` has a
name and no tag, and `check` does not report it, because the exemption set
holds `Foo`. -/
theorem C17_counterexample :
    statedAnonymous examples.fset examples.fileNestedExempt = [⟨"a.go", "X", 3, 5⟩] ∧
    check examples.fset examples.fileNestedExempt = [] ∧
    (⟨"a.go", "X", 3, 5⟩ : FieldError) ∉ check examples.fset examples.fileNestedExempt := by
  decide

/-- C17, amended: for every file the diagnostics of `check` are exactly, with
multiplicity and in order, one for each field occurrence of the pre-order
enumeration such that the field has no tag, has a name list, and its struct
type is not inside the subtree of a struct declaration named in the exemption
set.  A struct type node itself is never skipped, whatever the exemption set
holds, and a tree without struct declarations gives the same diagnostics for
every exemption set; so a struct type that is not the type of a declaration is
checked unless it lies inside an exempted struct declaration.  The struct type
of `var v struct { X int }` is checked although the comment names `v`, `X`
and `struct`. -/
theorem C17_check_refines_enumeration :
    (∀ (fset : FileSet) (file : File),
      check fset file = (reported file).map (fun o => diagnosticOf fset o.field) ∧
      reported file =
        (structFields (collectSkipStructs file) false none (.file file)).filter
          (fun o => !o.exempted && (o.field.Tag.isNone && o.field.Names.isSome)) ∧
      (check fset file).length = (reported file).length) ∧
    (∀ (fset : FileSet) (skip : Finset String) (p : Pos) (fl : FieldList) (inc : Bool)
        (errs : FieldErrors),
      isSkipStruct (some (.structType p fl inc)) skip = false ∧
      checkVisit fset skip (some (.structType p fl inc)) errs =
        (true, errs ++ (fl.List.filter untaggedNamed).map (diagnosticOf fset))) ∧
    (∀ (fset : FileSet) (skip : Finset String) (n : Node) (errs : FieldErrors),
      structDeclNames n = [] →
      Inspect (checkVisit fset skip) n errs = Inspect (checkVisit fset ∅) n errs) ∧
    (check examples.fset (examples.fileVar ["// notagcheck:v,X,struct"]) =
        [⟨"a.go", "X", 2, 5⟩] ∧
      check examples.fset (examples.fileVar []) = [⟨"a.go", "X", 2, 5⟩]) := by
  refine ⟨?_, ?_, ?_, by decide⟩
  · intro fset file
    refine ⟨check_eq_reported fset file, rfl, ?_⟩
    rw [check_eq_reported, List.length_map]
  · intro fset skip p fl inc errs
    refine ⟨rfl, ?_⟩
    rw [checkVisit_structType, foldl_checkField]
  · intro fset skip n errs hn
    rw [inspect_eq, inspect_eq,
      (structFields_congr_all ∅ skip).1 n (by rw [hn]; intro nm h; cases h)]

/-- Witness of C17: the variable declaration `var v struct { X int }` holds no
struct declaration. -/
theorem C17_check_refines_enumeration_witness :
    structDeclNames (.file (examples.fileVar [])) = [] ∧
    Inspect (checkVisit examples.fset {"v", "X"}) (.file (examples.fileVar [])) [] =
      Inspect (checkVisit examples.fset ∅) (.file (examples.fileVar [])) [] :=
  ⟨by decide,
   C17_check_refines_enumeration.2.2.1 examples.fset {"v", "X"}
    (.file (examples.fileVar [])) [] (by decide)⟩

/-- C18: enlarging the exemption set can only remove diagnostics: for every
syntax tree and exemption sets `S ⊆ T`, the diagnostics of the walk with `T`
are a sublist, in the same order, of those of the walk with `S`; so are those
of `check` for two files with the same tree whose exemption sets are
included. -/
theorem C18_monotone (fset : FileSet) (S T : Finset String) (h : S ⊆ T) :
    (∀ (n : Node) (errs : FieldErrors),
      (Inspect (checkVisit fset T) n errs).Sublist (Inspect (checkVisit fset S) n errs)) ∧
    (∀ (file file2 : File), sameTree file file2 →
      collectSkipStructs file = S → collectSkipStructs file2 = T →
      (check fset file2).Sublist (check fset file)) := by
  constructor
  · intro n errs
    rw [inspect_eq, inspect_eq]
    exact List.Sublist.append (List.Sublist.refl errs)
      ((sublist_all fset S T h).1 n false false none (fun x => x))
  · intro file file2 hs h1 h2
    rw [check_eq_decls, check_eq_decls, h1, h2, ← sameTree_decls hs]
    exact sublist_nodes fset S T file.Decls
      (fun n _ => (sublist_all fset S T h).1 n) false false (fun x => x)

/-- Witness of C18: the empty set and the set of `Foo`, on the file
`type Foo struct { In struct { X int } }`. -/
theorem C18_monotone_witness :
    (∅ : Finset String) ⊆ {"Foo"} ∧
    (Inspect (checkVisit examples.fset {"Foo"}) (.file examples.fileNested) []).Sublist
      (Inspect (checkVisit examples.fset ∅) (.file examples.fileNested) []) :=
  ⟨by decide, (C18_monotone examples.fset ∅ {"Foo"} (by decide)).1 _ _⟩

/-- C19: a tag suppresses the diagnostic of the field that carries it and
nothing else.  The walk of a field is the walk of its type, whatever its
names and its tag; the walk of a struct type whose only field is a tagged or
embedded field is the walk of the type of that field.  For
`type T struct { In struct { X int } "json" }` the field `X` is reported, and
for `type T struct { Base[struct { Y int }] }` the field `Y` is. -/
theorem C19_tag_does_not_prune :
    (∀ (fset : FileSet) (skip : Finset String) (doc : Option CommentGroup)
        (names : Option (List Ident)) (t : Node) (tag : Option BasicLit)
        (cmt : Option CommentGroup) (errs : FieldErrors),
      inspectField (checkVisit fset skip) (.mk doc names (some t) tag cmt) errs =
        Inspect (checkVisit fset skip) t errs) ∧
    (∀ (fset : FileSet) (skip : Finset String) (p o c : Pos) (inc : Bool) (f : Field) (t : Node)
        (errs : FieldErrors), f.Type_ = some t → untaggedNamed f = false →
      Inspect (checkVisit fset skip) (.structType p (.mk o [f] c) inc) errs =
        Inspect (checkVisit fset skip) t errs) ∧
    (∀ (fset : FileSet) (skip : Finset String) (p o c p2 : Pos) (inc inc2 : Bool)
        (doc : Option CommentGroup) (names : Option (List Ident)) (tag : BasicLit)
        (cmt : Option CommentGroup) (fl2 : FieldList) (errs : FieldErrors),
      Inspect (checkVisit fset skip)
          (.structType p (.mk o [.mk doc names (some (.structType p2 fl2 inc2)) (some tag) cmt] c)
            inc) errs =
        errs ++ (fl2.List.filter untaggedNamed).map (diagnosticOf fset) ++
          inspectFieldList (checkVisit fset skip) fl2 []) ∧
    (check examples.fset examples.fileTaggedInline = [⟨"a.go", "X", 3, 5⟩] ∧
      check examples.fset examples.fileEmbeddedInline = [⟨"a.go", "Y", 3, 5⟩]) := by
  have hfield : ∀ (fset : FileSet) (skip : Finset String) (doc : Option CommentGroup)
      (names : Option (List Ident)) (t : Node) (tag : Option BasicLit)
      (cmt : Option CommentGroup) (errs : FieldErrors),
      inspectField (checkVisit fset skip) (.mk doc names (some t) tag cmt) errs =
        Inspect (checkVisit fset skip) t errs := by
    intro fset skip doc names t tag cmt errs
    rw [inspectField_eq, inspect_eq]
    simp only [structFieldsField, structFieldsType]
  have hstruct : ∀ (fset : FileSet) (skip : Finset String) (p o c : Pos) (inc : Bool)
      (f : Field) (t : Node) (errs : FieldErrors), f.Type_ = some t →
      untaggedNamed f = false →
      Inspect (checkVisit fset skip) (.structType p (.mk o [f] c) inc) errs =
        Inspect (checkVisit fset skip) t errs := by
    intro fset skip p o c inc f t errs ht hu
    rw [inspect_structType, inspectFieldList_eq, inspect_eq]
    cases f with
    | mk doc names ty tag cmt =>
      simp only [Field.Type_] at ht
      subst ht
      simp [FieldList.List, hu, structFieldsFieldList, structFieldsFields, structFieldsField,
        structFieldsType, diagnostics_nil]
  refine ⟨hfield, hstruct, ?_, by decide⟩
  intro fset skip p o c p2 inc inc2 doc names tag cmt fl2 errs
  rw [hstruct fset skip p o c inc
    (.mk doc names (some (.structType p2 fl2 inc2)) (some tag) cmt)
    (.structType p2 fl2 inc2) errs rfl (by simp [untaggedNamed, Field.Tag]),
    inspect_structType]

/-- Witness of C19: the tagged field `In struct { X int } "json"`. -/
theorem C19_tag_does_not_prune_witness :
    untaggedNamed (examples.namedField 205 "In"
        (examples.structOf 208 [examples.namedField 305 "X" (examples.typeName 307 "int") none])
        (some (examples.tagLit 320 "json"))) = false ∧
    Inspect (checkVisit examples.fset ∅)
        (.structType 110 (.mk 117 [examples.namedField 205 "In"
          (examples.structOf 208 [examples.namedField 305 "X" (examples.typeName 307 "int") none])
          (some (examples.tagLit 320 "json"))] 200) false) [] =
      Inspect (checkVisit examples.fset ∅)
        (examples.structOf 208 [examples.namedField 305 "X" (examples.typeName 307 "int") none])
        [] :=
  ⟨by decide,
   C19_tag_does_not_prune.2.1 examples.fset ∅ 110 117 200 false
    (examples.namedField 205 "In"
      (examples.structOf 208 [examples.namedField 305 "X" (examples.typeName 307 "int") none])
      (some (examples.tagLit 320 "json")))
    (examples.structOf 208 [examples.namedField 305 "X" (examples.typeName 307 "int") none])
    [] rfl (by decide)⟩

/-- C20: `isSkipStruct` returns true exactly for a type declaration whose type
is directly a struct type and whose name is in the set.  It returns false for
the nil node, and for a type declaration whose type is a pointer to, a slice
of or a parenthesized struct type, whatever the set: the walk of such a
declaration goes on into the struct type and its fields are checked.  With
the comment `// notagcheck:Foo`, the field of `type Foo *struct { Name string }`
is reported. -/
theorem C20_isSkipStruct_exact :
    (∀ (node : Option Node) (skip : Finset String),
      isSkipStruct node skip = true ↔
        ∃ (doc : Option CommentGroup) (nm : Ident) (tp : Option FieldList) (a p : Pos)
          (fl : FieldList) (inc : Bool) (cmt : Option CommentGroup),
          node = some (.typeSpec doc nm tp a (.structType p fl inc) cmt) ∧ nm.Name ∈ skip) ∧
    (∀ skip : Finset String, isSkipStruct none skip = false) ∧
    (∀ (skip : Finset String) (doc : Option CommentGroup) (nm : Ident) (tp : Option FieldList)
        (a q : Pos) (cs : List Node) (cmt : Option CommentGroup),
      isSkipStruct (some (.typeSpec doc nm tp a (.other q cs) cmt)) skip = false) ∧
    (∀ (fset : FileSet) (skip : Finset String) (doc : Option CommentGroup) (nm : Ident)
        (a q p : Pos) (fl : FieldList) (inc : Bool) (cmt : Option CommentGroup)
        (errs : FieldErrors),
      Inspect (checkVisit fset skip)
          (.typeSpec doc nm none a (.other q [.structType p fl inc]) cmt) errs =
        errs ++ (fl.List.filter untaggedNamed).map (diagnosticOf fset) ++
          inspectFieldList (checkVisit fset skip) fl []) ∧
    check examples.fset examples.fileWrapped = [⟨"a.go", "Name", 2, 5⟩] := by
  refine ⟨?_, fun _ => rfl, fun _ _ _ _ _ _ _ _ => rfl, ?_, by decide⟩
  · intro node skip
    constructor
    · intro h
      cases node with
      | none => simp [isSkipStruct] at h
      | some n =>
        cases n with
        | typeSpec doc nm tp a ty cmt =>
          cases ty with
          | structType p fl inc =>
            exact ⟨doc, nm, tp, a, p, fl, inc, cmt, rfl, by simpa [isSkipStruct] using h⟩
          | _ => simp [isSkipStruct] at h
        | _ => simp [isSkipStruct] at h
    · rintro ⟨doc, nm, tp, a, p, fl, inc, cmt, rfl, hm⟩
      simp [isSkipStruct, hm]
  · intro fset skip doc nm a q p fl inc cmt errs
    rw [inspect_eq]
    simp only [structFields, structFieldsTypeParams, structFieldsNodes, exemptDecl,
      isStructType, Bool.false_and, Bool.or_false, List.nil_append, List.append_nil]
    rw [diagnostics_append, diagnostics_own, inspectFieldList_eq]
    simp


end tagcheck
